import Mathlib

/-!
Verification of the spectral-analysis pipeline of the DashboardMS repository.

The JavaScript sources are shallowly embedded here:
* `JonswapSpectrum` (iterative alpha calibration, JONSWAP synthesis) over `ℝ`;
* `PowerSpectralDensity` (interpolation, displacement/acceleration PSDs,
  ISO-2631 Wf weighting, vertical-motion superposition, MSDV integration);
* `RAOVisualizer` (response-table parsing, phase normalisation/unwrapping,
  heading folding and nearest-bucket selection) over `ℚ` so that all parsing
  and bucket arithmetic stays exact.

JavaScript floating-point numbers are modelled as exact real (respectively
rational) numbers; `Math.sqrt` of a negative argument (NaN in JavaScript) is
modelled as `Option.none`.
-/

namespace DashboardMS

/-! ## JavaScript numeric primitives -/

/-- Truncation toward zero, as used by the JavaScript `%` remainder:
`trunc q` is `⌊q⌋` for nonnegative `q` and `⌈q⌉` for negative `q`. -/
def jsTrunc (q : ℚ) : ℤ := if 0 ≤ q then ⌊q⌋ else ⌈q⌉

/-- The JavaScript remainder `x % y` (sign follows the dividend):
`x - y * trunc (x / y)`. -/
def jsMod (x y : ℚ) : ℚ := x - y * (jsTrunc (x / y) : ℚ)

theorem jsMod_nonneg_lt (x y : ℚ) (hx : 0 ≤ x) (hy : 0 < y) :
    0 ≤ jsMod x y ∧ jsMod x y < y := by
  have hq : (0:ℚ) ≤ x / y := div_nonneg hx hy.le
  have hyx : y * (x / y) = x := by field_simp
  have ht : jsTrunc (x / y) = ⌊x / y⌋ := if_pos hq
  constructor
  · have h1 : (⌊x / y⌋ : ℚ) ≤ x / y := Int.floor_le _
    have h1' : y * (⌊x / y⌋ : ℚ) ≤ y * (x / y) :=
      mul_le_mul_of_nonneg_left h1 hy.le
    rw [jsMod, ht]; linarith
  · have h2 : x / y < (⌊x / y⌋ : ℚ) + 1 := Int.lt_floor_add_one _
    have h2' : y * (x / y) < y * ((⌊x / y⌋ : ℚ) + 1) :=
      mul_lt_mul_of_pos_left h2 hy
    rw [jsMod, ht]; nlinarith

theorem jsMod_neg_le (x y : ℚ) (hx : x < 0) (hy : 0 < y) :
    -y < jsMod x y ∧ jsMod x y ≤ 0 := by
  have hq : ¬ (0:ℚ) ≤ x / y := not_le.mpr (div_neg_of_neg_of_pos hx hy)
  have hyx : y * (x / y) = x := by field_simp
  have ht : jsTrunc (x / y) = ⌈x / y⌉ := if_neg hq
  constructor
  · have h1 : (⌈x / y⌉ : ℚ) - 1 < x / y := by
      have := Int.ceil_lt_add_one (x / y); linarith
    have h1' : y * ((⌈x / y⌉ : ℚ) - 1) < y * (x / y) :=
      mul_lt_mul_of_pos_left h1 hy
    rw [jsMod, ht]; nlinarith
  · have h2 : x / y ≤ (⌈x / y⌉ : ℚ) := Int.le_ceil _
    have h2' : y * (x / y) ≤ y * (⌈x / y⌉ : ℚ) :=
      mul_le_mul_of_nonneg_left h2 hy.le
    rw [jsMod, ht]; linarith

/-! ## RAOVisualizer: phase normalisation -/

/-- The phase-normalisation step of `RAOVisualizer.parseRAOFile`
(line `phase = ((phase + 180) % 360) - 180;`). -/
def normalizePhase (p : ℚ) : ℚ := jsMod (p + 180) 360 - 180

/-- Helper to evaluate `normalizePhase` on concrete rationals. -/
theorem normalizePhase_eval (p v : ℚ) (k : ℤ)
    (hk : jsTrunc ((p + 180) / 360) = k) (hv : p - 360 * k = v) :
    normalizePhase p = v := by
  rw [normalizePhase, jsMod, hk]; linarith

/-- For raw phases `p ≥ -180` the normalisation lands in `[-180, 180)`. -/
theorem normalizePhase_mem_Ico (p : ℚ) (hp : -180 ≤ p) :
    normalizePhase p ∈ Set.Ico (-180 : ℚ) 180 := by
  have h := jsMod_nonneg_lt (p + 180) 360 (by linarith) (by norm_num)
  constructor <;> [skip; skip] <;>
    simp only [normalizePhase] <;> [linarith [h.1]; linarith [h.2]]

/-! ## RAOVisualizer: heading folding and nearest-bucket selection -/

/-- Helper to evaluate `jsMod` on concrete rationals. -/
theorem jsMod_eval (x y v : ℚ) (k : ℤ)
    (hk : jsTrunc (x / y) = k) (hv : x - y * k = v) : jsMod x y = v := by
  rw [jsMod, hk]; exact_mod_cast hv

/-- `RAOVisualizer.unwrapHeading`: normalise a heading to `[0, 360)` via
`((heading % 360) + 360) % 360`, then reflect values above 180 with
`Math.abs(360 - heading)`. -/
def unwrapHeading (h : ℚ) : ℚ :=
  if jsMod (jsMod h 360 + 360) 360 > 180 then |360 - jsMod (jsMod h 360 + 360) 360|
  else jsMod (jsMod h 360 + 360) 360

/-- The JavaScript `Array.prototype.reduce` pattern used by
`RAOVisualizer.findNearestHeading` and `parseRAOFile`: the first element is
the initial accumulator, and each step keeps the entry strictly closer to
the target (ties keep the earlier entry).  `reduce` on an empty array throws
in JavaScript; the embedded function returns 0 there (the call sites only
pass nonempty lists). -/
def reduceNearest (t : ℚ) : List ℚ → ℚ
  | [] => 0
  | x :: xs => xs.foldl (fun prev curr => if |curr - t| < |prev - t| then curr else prev) x

/-- The fixed heading buckets of `RAOVisualizer.findNearestHeading`. -/
def availableHeadings : List ℚ := [0, 30, 60, 90, 120, 150, 180]

/-- `RAOVisualizer.findNearestHeading`: fold the heading to `[0,180]` and
reduce over the fixed bucket list. -/
def findNearestHeading (h : ℚ) : ℚ :=
  reduceNearest (unwrapHeading h) availableHeadings

theorem reduceNearest_foldl_spec (t : ℚ) (xs : List ℚ) : ∀ (a : ℚ),
    (xs.foldl (fun prev curr => if |curr - t| < |prev - t| then curr else prev) a)
      ∈ a :: xs ∧
    ∀ b ∈ a :: xs,
      |(xs.foldl (fun prev curr => if |curr - t| < |prev - t| then curr else prev) a) - t|
        ≤ |b - t| := by
  induction xs with
  | nil =>
      intro a
      refine ⟨List.mem_singleton.mpr rfl, ?_⟩
      intro b hb
      rw [List.mem_singleton.mp hb]
      simp
  | cons x xs ih =>
      intro a
      simp only [List.foldl_cons]
      rcases ih (if |x - t| < |a - t| then x else a) with ⟨hmem, hmin⟩
      have hstep_mem : (if |x - t| < |a - t| then x else a) ∈ a :: x :: xs := by
        by_cases hc : |x - t| < |a - t|
        · rw [if_pos hc]; exact List.mem_cons_of_mem _ (List.mem_cons_self _ _)
        · rw [if_neg hc]; exact List.mem_cons_self _ _
      have hsub : ((if |x - t| < |a - t| then x else a) :: xs) ⊆ a :: x :: xs := by
        intro c hc
        rcases List.mem_cons.mp hc with hc | hc
        · rw [hc]; exact hstep_mem
        · exact List.mem_cons_of_mem _ (List.mem_cons_of_mem _ hc)
      refine ⟨hsub hmem, ?_⟩
      have hstep_a : |(if |x - t| < |a - t| then x else a) - t| ≤ |a - t| := by
        by_cases hc : |x - t| < |a - t|
        · rw [if_pos hc]; exact hc.le
        · rw [if_neg hc]
      have hstep_x : |(if |x - t| < |a - t| then x else a) - t| ≤ |x - t| := by
        by_cases hc : |x - t| < |a - t|
        · rw [if_pos hc]
        · rw [if_neg hc]; exact not_lt.mp hc
      have hhead := hmin _ (List.mem_cons_self _ _)
      intro b hb
      rcases List.mem_cons.mp hb with hb | hb
      · rw [hb]; exact le_trans hhead hstep_a
      rcases List.mem_cons.mp hb with hb | hb
      · rw [hb]; exact le_trans hhead hstep_x
      · exact hmin _ (List.mem_cons_of_mem _ hb)

/-- `reduceNearest` on a nonempty list returns a member of the list that is a
minimizer of the distance to the target. -/
theorem reduceNearest_spec (t : ℚ) (x : ℚ) (xs : List ℚ) :
    reduceNearest t (x :: xs) ∈ x :: xs ∧
      ∀ b ∈ x :: xs, |reduceNearest t (x :: xs) - t| ≤ |b - t| :=
  reduceNearest_foldl_spec t xs x

/-- The first normalisation pass of `unwrapHeading` lands in `[0, 360)`. -/
theorem unwrapHeading_pass_mem (h : ℚ) :
    0 ≤ jsMod (jsMod h 360 + 360) 360 ∧ jsMod (jsMod h 360 + 360) 360 < 360 := by
  have h360 : (0:ℚ) < 360 := by norm_num
  have hfst : -360 < jsMod h 360 ∧ jsMod h 360 < 360 := by
    rcases le_or_lt 0 h with hx | hx
    · have := jsMod_nonneg_lt h 360 hx h360
      exact ⟨by linarith [this.1], this.2⟩
    · have := jsMod_neg_le h 360 hx h360
      exact ⟨this.1, by linarith [this.2]⟩
  exact jsMod_nonneg_lt _ 360 (by linarith [hfst.1]) h360

/-- Folding always lands in `[0, 180]`. -/
theorem unwrapHeading_mem_Icc (h : ℚ) : unwrapHeading h ∈ Set.Icc (0:ℚ) 180 := by
  rcases unwrapHeading_pass_mem h with ⟨h0, h1⟩
  rw [unwrapHeading]
  by_cases hc : jsMod (jsMod h 360 + 360) 360 > 180
  · rw [if_pos hc, abs_of_nonneg (by linarith)]
    constructor <;> [linarith; linarith]
  · rw [if_neg hc]
    exact ⟨h0, by linarith [not_lt.mp hc]⟩

theorem unwrapHeading_ten : unwrapHeading 10 = 10 := by
  have e1 : jsMod (10:ℚ) 360 = 10 :=
    jsMod_eval _ _ _ 0 (by rw [jsTrunc]; norm_num) (by norm_num)
  have e2 : jsMod ((10:ℚ) + 360) 360 = 10 :=
    jsMod_eval _ _ _ 1 (by rw [jsTrunc]; norm_num) (by norm_num)
  rw [unwrapHeading, e1, e2]; norm_num

theorem unwrapHeading_fold350 : unwrapHeading 350 = 10 := by
  have e1 : jsMod (350:ℚ) 360 = 350 :=
    jsMod_eval _ _ _ 0 (by rw [jsTrunc]; norm_num) (by norm_num)
  have e2 : jsMod ((350:ℚ) + 360) 360 = 350 :=
    jsMod_eval _ _ _ 1 (by rw [jsTrunc]; norm_num) (by norm_num)
  rw [unwrapHeading, e1, e2]; norm_num

theorem unwrapHeading_fold200 : unwrapHeading 200 = 160 := by
  have e1 : jsMod (200:ℚ) 360 = 200 :=
    jsMod_eval _ _ _ 0 (by rw [jsTrunc]; norm_num) (by norm_num)
  have e2 : jsMod ((200:ℚ) + 360) 360 = 200 :=
    jsMod_eval _ _ _ 1 (by rw [jsTrunc]; norm_num) (by norm_num)
  rw [unwrapHeading, e1, e2]; norm_num

/-- C7: heading resolution folds every heading into `[0,180]` by reflection
and picks the nearest of the fixed buckets `{0,30,60,90,120,150,180}`; the
query headings 10° and 350° both resolve to bucket 0°, and 200° folds to
160° and selects bucket 150°. -/
theorem heading_resolution_folds_and_picks_nearest :
    (∀ h : ℚ, unwrapHeading h ∈ Set.Icc (0:ℚ) 180) ∧
    (∀ h : ℚ, findNearestHeading h ∈ availableHeadings ∧
      ∀ b ∈ availableHeadings,
        |findNearestHeading h - unwrapHeading h| ≤ |b - unwrapHeading h|) ∧
    findNearestHeading 10 = 0 ∧ findNearestHeading 350 = 0 ∧
    unwrapHeading 200 = 160 ∧ findNearestHeading 200 = 150 := by
  have hnear : ∀ h : ℚ, findNearestHeading h ∈ availableHeadings ∧
      ∀ b ∈ availableHeadings,
        |findNearestHeading h - unwrapHeading h| ≤ |b - unwrapHeading h| := by
    intro h
    exact reduceNearest_spec (unwrapHeading h) 0 [30, 60, 90, 120, 150, 180]
  have h10 : findNearestHeading 10 = 0 := by
    rw [findNearestHeading, unwrapHeading_ten]
    simp only [reduceNearest, availableHeadings, List.foldl]
    norm_num
  have h350 : findNearestHeading 350 = 0 := by
    rw [findNearestHeading, unwrapHeading_fold350]
    simp only [reduceNearest, availableHeadings, List.foldl]
    norm_num
  have h200 : findNearestHeading 200 = 150 := by
    rw [findNearestHeading, unwrapHeading_fold200]
    simp only [reduceNearest, availableHeadings, List.foldl]
    norm_num
  exact ⟨unwrapHeading_mem_Icc, hnear, h10, h350, unwrapHeading_fold200, h200⟩

/-- Witness instantiating the universally quantified parts of the heading
resolution theorem at concrete inputs. -/
theorem heading_resolution_folds_and_picks_nearest_witness :
    |findNearestHeading 17 - unwrapHeading 17| ≤ |(30:ℚ) - unwrapHeading 17| :=
  (heading_resolution_folds_and_picks_nearest.2.1 17).2 30 (by simp [availableHeadings])

/-! ## RAOVisualizer: response-table parsing

The file content reaches `parseRAOFile` as a string that is immediately split
at newlines (`content.split('\n')`); the embedding takes the list of lines
directly.  String operations are modelled on the underlying character lists.
Numeric tokens are modelled as plain decimal literals (optional sign, digits,
optional fraction); scientific notation and `parseFloat`'s longest-numeric-
prefix behaviour are not exercised by the repository's tables and are mapped
to `none` (NaN). -/

/-- Whitespace test covering the characters produced by the repository's
table files (the JavaScript `\s` class and `trim`). -/
def isWSChar (c : Char) : Bool := c == ' ' || c == '\t' || c == '\r' || c == '\n'

/-- `String.prototype.trim`. -/
def trimChars (l : List Char) : List Char :=
  ((l.dropWhile isWSChar).reverse.dropWhile isWSChar).reverse

/-- `String.prototype.startsWith` on character lists. -/
def startsWithChars : List Char → List Char → Bool
  | [], _ => true
  | _ :: _, [] => false
  | p :: ps, c :: cs => p == c && startsWithChars ps cs

/-- `String.prototype.includes` on character lists. -/
def containsSub (pat : List Char) : List Char → Bool
  | [] => startsWithChars pat []
  | c :: cs => startsWithChars pat (c :: cs) || containsSub pat cs

/-- `String.prototype.replace(pat, '')`: remove the first occurrence. -/
def removeFirstSub (pat : List Char) : List Char → List Char
  | [] => []
  | c :: cs =>
    if startsWithChars pat (c :: cs) then (c :: cs).drop pat.length
    else c :: removeFirstSub pat cs

/-- Accumulator for `split(/\s+/)`: collect maximal non-whitespace runs. -/
def splitWSAux : List Char → List Char → List (List Char)
  | [], acc => if acc = [] then [] else [acc.reverse]
  | c :: cs, acc =>
    if isWSChar c then
      (if acc = [] then splitWSAux cs [] else acc.reverse :: splitWSAux cs [])
    else splitWSAux cs (c :: acc)

/-- `String.prototype.split(/\s+/)` on an already-trimmed string (every call
site in `parseRAOFile` trims first). -/
def splitWS (l : List Char) : List (List Char) := splitWSAux l []

/-- Base-10 value of a digit run. -/
def natVal (l : List Char) : ℕ :=
  l.foldl (fun a c => a * 10 + (c.toNat - '0'.toNat)) 0

/-- Unsigned decimal literal: digits, optionally followed by `.` and digits,
with at least one digit overall (`Number`/`parseFloat` on the repository's
tokens). -/
def parseUnsigned (l : List Char) : Option ℚ :=
  let ip := l.takeWhile Char.isDigit
  let rest := l.dropWhile Char.isDigit
  if rest = [] then (if ip = [] then none else some (natVal ip : ℚ))
  else if rest.head? = some '.' ∧ rest.tail.all Char.isDigit ∧
      (ip ≠ [] ∨ rest.tail ≠ []) then
    some ((natVal ip : ℚ) + (natVal rest.tail : ℚ) / 10 ^ rest.tail.length)
  else none

/-- Signed decimal literal (NaN is `none`). -/
def parseDec (l : List Char) : Option ℚ :=
  if l.head? = some '-' then (parseUnsigned l.tail).map (fun q => -q)
  else if l.head? = some '+' then parseUnsigned l.tail
  else parseUnsigned l

/-- The offset update of the phase-unwrapping loop in `parseRAOFile`:
accumulate ±360° whenever the step between consecutive normalised phases
exceeds ±180°. -/
def unwrapOffset (prev : Option ℚ) (offset n : ℚ) : ℚ :=
  match prev with
  | none => offset
  | some q =>
    if n - q > 180 then offset - 360
    else if n - q < -180 then offset + 360
    else offset

/-- The per-row phase pipeline of `parseRAOFile`: normalise each raw phase,
update the unwrap offset against the previous normalised phase, and emit
`normalised + offset`. -/
def unwrapStep (prev : Option ℚ) (offset : ℚ) : List ℚ → List ℚ
  | [] => []
  | p :: ps =>
    (normalizePhase p + unwrapOffset prev offset (normalizePhase p)) ::
      unwrapStep (some (normalizePhase p))
        (unwrapOffset prev offset (normalizePhase p)) ps

/-- Phase normalisation and unwrapping over the accepted data rows, with the
initial state `prevPhase = null`, `phaseOffset = 0`. -/
def unwrapPhases (ps : List ℚ) : List ℚ := unwrapStep none 0 ps

/-- The `#HEADING` marker test (`lines[i].trim().startsWith('#HEADING')`). -/
def isHeadingLine (l : String) : Bool :=
  startsWithChars "#HEADING".data (trimChars l.data)

/-- The data-start marker test (`lines[i].includes('w(r/s)')`). -/
def hasDataMarker (l : String) : Bool := containsSub "w(r/s)".data l.data

/-- Heading list declared on a `#HEADING` line
(`lines[i].replace('#HEADING','').trim().split(/\s+/).map(Number)`).
A non-numeric token (NaN in JavaScript) is mapped to 0; the repository's
tables only carry numeric headings. -/
def headingTokens (l : String) : List ℚ :=
  (splitWS (trimChars (removeFirstSub "#HEADING".data l.data))).map
    (fun tok => (parseDec tok).getD 0)

/-- The scan loop of `parseRAOFile`: the last `#HEADING` line wins. -/
def lastHeadingsAux : Option (List ℚ) → List String → Option (List ℚ)
  | acc, [] => acc
  | acc, l :: ls =>
    lastHeadingsAux (if isHeadingLine l then some (headingTokens l) else acc) ls

/-- Headings of the last `#HEADING` line, or `none` when the marker is
missing (`headingLineIdx === -1`). -/
def lastHeadings (lines : List String) : Option (List ℚ) :=
  lastHeadingsAux none lines

/-- The scan loop of `parseRAOFile` for the data-start index: the line after
the last line containing `w(r/s)` wins. -/
def lastDataStartAux : ℕ → Option ℕ → List String → Option ℕ
  | _, acc, [] => acc
  | i, acc, l :: ls =>
    lastDataStartAux (i + 1) (if hasDataMarker l then some (i + 1) else acc) ls

/-- Index of the first data row, or `none` when the `w(r/s)` marker is
missing (`dataStartIdx === -1`). -/
def lastDataStart (lines : List String) : Option ℕ :=
  lastDataStartAux 0 none lines

/-- `Array.prototype.indexOf` over the heading list.  The call site looks up
an element produced by `reduceNearest`, which is always a member, so the
JavaScript `-1` branch is unreachable. -/
def idxOfQ (a : ℚ) : List ℚ → ℕ
  | [] => 0
  | x :: xs => if x = a then 0 else idxOfQ a xs + 1

/-- One data row of `parseRAOFile`: trim, skip blank and `#` lines, require
`1 + 2·N` columns, parse frequency, amplitude and phase, skipping the row on
any NaN.  Returns `(frequency, amplitude, raw phase)`. -/
def parseDataRow (numHeadings hIdx : ℕ) (line : String) : Option (ℚ × ℚ × ℚ) :=
  let t := trimChars line.data
  if t = [] then none
  else if t.head? = some '#' then none
  else
    let vals := splitWS t
    if vals.length < 1 + 2 * numHeadings then none
    else
      match parseDec (vals.getD 0 []), parseDec (vals.getD (1 + hIdx) []),
            parseDec (vals.getD (1 + numHeadings + hIdx) []) with
      | some w, some amp, some ph => some (w, amp, ph)
      | _, _, _ => none

/-- Parsed response table: frequencies (rad/s), amplitudes, unwrapped
phases (deg). -/
structure RAOData where
  periods : List ℚ
  amplitudes : List ℚ
  phases : List ℚ
  deriving DecidableEq

/-- `RAOVisualizer.parseRAOFile`.  Returns `none` exactly where the source
returns `null` (missing `#HEADING` or `w(r/s)` marker).  The requested
heading is resolved to the nearest declared heading by the same
`reduce` pattern as `findNearestHeading`; accepted rows are stably sorted
ascending by frequency at the end.  (An empty heading list cannot be
produced by a real table — JavaScript's `split` returns at least one token —
and is mapped to `none`.) -/
def parseRAOFile (lines : List String) (targetHeading : ℚ) : Option RAOData :=
  match lastHeadings lines, lastDataStart lines with
  | some headings, some start =>
    match headings with
    | [] => none
    | h0 :: hrest =>
      let nearest := reduceNearest targetHeading (h0 :: hrest)
      let hIdx := idxOfQ nearest (h0 :: hrest)
      let rows := (lines.drop start).filterMap
        (parseDataRow (h0 :: hrest).length hIdx)
      let sorted := List.mergeSort
        ((rows.map (·.1)).zip (((rows.map (·.2.1))).zip (unwrapPhases (rows.map (·.2.2)))))
        (fun a b => a.1 ≤ b.1)
      some ⟨sorted.map (·.1), sorted.map (·.2.1), sorted.map (·.2.2)⟩
  | _, _ => none

/-! ## Concrete response tables and their evaluation -/

/-- Evaluation helper: a token of plain digits parses to its value. -/
theorem parseDec_digits (l : List Char) (n : ℕ)
    (ht : l.takeWhile Char.isDigit = l) (hd : l.dropWhile Char.isDigit = [])
    (hne : ¬ l = []) (hv : natVal l = n)
    (hm : ¬ l.head? = some '-') (hp : ¬ l.head? = some '+') :
    parseDec l = some (n : ℚ) := by
  rw [parseDec, if_neg hm, if_neg hp]
  simp only [parseUnsigned, ht, hd, if_neg hne, hv]
  simp

/-- Evaluation helper: a minus sign followed by digits parses to the
negated value. -/
theorem parseDec_negDigits (l : List Char) (n : ℕ)
    (hm : l.head? = some '-')
    (ht : l.tail.takeWhile Char.isDigit = l.tail)
    (hd : l.tail.dropWhile Char.isDigit = [])
    (hne : ¬ l.tail = []) (hv : natVal l.tail = n) :
    parseDec l = some (-(n : ℚ)) := by
  rw [parseDec, if_pos hm]
  simp only [parseUnsigned, ht, hd, if_neg hne, hv]
  simp

theorem headingTokens_eval : headingTokens "#HEADING 0 30" = [0, 30] := by
  simp only [headingTokens]
  simp +decide [splitWS, splitWSAux, trimChars, removeFirstSub, parseDec,
    parseUnsigned, natVal, isWSChar, startsWithChars]

/-- A well-formed two-heading table declaring headings 0 and 30 with a
single data row. -/
def tableTwoHeadings : List String := ["#HEADING 0 30", "w(r/s)", "1 2 2 10 20"]

/-- A well-formed table whose first data row carries the raw phase −500,
which normalisation leaves below −180. -/
def tableLowPhase : List String :=
  ["#HEADING 0 30", "w(r/s)", "1 2 2 -500 -500", "2 3 3 100 100"]

theorem lastHeadings_tableTwoHeadings :
    lastHeadings tableTwoHeadings = some [0, 30] := by
  have hA : isHeadingLine "#HEADING 0 30" = true := by decide
  have hB : isHeadingLine "w(r/s)" = false := by decide
  have hC : isHeadingLine "1 2 2 10 20" = false := by decide
  simp only [lastHeadings, tableTwoHeadings, lastHeadingsAux, hA, hB, hC,
    if_true, if_false, Bool.false_eq_true, headingTokens_eval]

theorem lastDataStart_tableTwoHeadings :
    lastDataStart tableTwoHeadings = some 2 := by
  have hA : hasDataMarker "#HEADING 0 30" = false := by decide
  have hB : hasDataMarker "w(r/s)" = true := by decide
  have hC : hasDataMarker "1 2 2 10 20" = false := by decide
  simp only [lastDataStart, tableTwoHeadings, lastDataStartAux, hA, hB, hC,
    if_true, if_false, Bool.false_eq_true]

theorem lastHeadings_tableLowPhase :
    lastHeadings tableLowPhase = some [0, 30] := by
  have hA : isHeadingLine "#HEADING 0 30" = true := by decide
  have hB : isHeadingLine "w(r/s)" = false := by decide
  have hC : isHeadingLine "1 2 2 -500 -500" = false := by decide
  have hD : isHeadingLine "2 3 3 100 100" = false := by decide
  simp only [lastHeadings, tableLowPhase, lastHeadingsAux, hA, hB, hC, hD,
    if_true, if_false, Bool.false_eq_true, headingTokens_eval]

theorem lastDataStart_tableLowPhase :
    lastDataStart tableLowPhase = some 2 := by
  have hA : hasDataMarker "#HEADING 0 30" = false := by decide
  have hB : hasDataMarker "w(r/s)" = true := by decide
  have hC : hasDataMarker "1 2 2 -500 -500" = false := by decide
  have hD : hasDataMarker "2 3 3 100 100" = false := by decide
  simp only [lastDataStart, tableLowPhase, lastDataStartAux, hA, hB, hC, hD,
    if_true, if_false, Bool.false_eq_true]

theorem parseDataRow_mid : parseDataRow 2 1 "1 2 2 10 20" = some (1, 2, 20) := by
  simp +decide [parseDataRow, trimChars, splitWS, splitWSAux, isWSChar,
    parseDec, parseUnsigned, natVal]

theorem parseDataRow_low1 :
    parseDataRow 2 0 "1 2 2 -500 -500" = some (1, 2, -500) := by
  simp +decide [parseDataRow, trimChars, splitWS, splitWSAux, isWSChar,
    parseDec, parseUnsigned, natVal]

theorem parseDataRow_low2 :
    parseDataRow 2 0 "2 3 3 100 100" = some (2, 3, 100) := by
  simp +decide [parseDataRow, trimChars, splitWS, splitWSAux, isWSChar,
    parseDec, parseUnsigned, natVal]

theorem unwrapPhases_low : unwrapPhases [(-500 : ℚ), 100] = [-500, -260] := by
  have hnp1 : normalizePhase (-500) = -500 :=
    normalizePhase_eval _ _ 0 (by rw [jsTrunc]; norm_num) (by norm_num)
  have hnp2 : normalizePhase 100 = 100 :=
    normalizePhase_eval _ _ 0 (by rw [jsTrunc]; norm_num) (by norm_num)
  simp only [unwrapPhases, unwrapStep, unwrapOffset, hnp1, hnp2]
  norm_num

theorem parse_tableTwoHeadings_90 :
    parseRAOFile tableTwoHeadings 90 = some ⟨[1], [2], [20]⟩ := by
  have hnear : reduceNearest 90 [0, 30] = 30 := by
    simp only [reduceNearest, List.foldl]
    norm_num
  have hidx : idxOfQ 30 [0, 30] = 1 := by
    simp only [idxOfQ]
    norm_num
  have hnp : normalizePhase 20 = 20 :=
    normalizePhase_eval _ _ 0 (by rw [jsTrunc]; norm_num) (by norm_num)
  rw [parseRAOFile, lastHeadings_tableTwoHeadings, lastDataStart_tableTwoHeadings]
  simp [hnear, hidx, parseDataRow_mid, tableTwoHeadings, unwrapPhases,
    unwrapStep, unwrapOffset, hnp, List.mergeSort]

theorem parse_tableTwoHeadings_30 :
    parseRAOFile tableTwoHeadings 30 = some ⟨[1], [2], [20]⟩ := by
  have hnear : reduceNearest 30 [0, 30] = 30 := by
    simp only [reduceNearest, List.foldl]
    norm_num
  have hidx : idxOfQ 30 [0, 30] = 1 := by
    simp only [idxOfQ]
    norm_num
  have hnp : normalizePhase 20 = 20 :=
    normalizePhase_eval _ _ 0 (by rw [jsTrunc]; norm_num) (by norm_num)
  rw [parseRAOFile, lastHeadings_tableTwoHeadings, lastDataStart_tableTwoHeadings]
  simp [hnear, hidx, parseDataRow_mid, tableTwoHeadings, unwrapPhases,
    unwrapStep, unwrapOffset, hnp, List.mergeSort]

theorem parse_tableLowPhase :
    parseRAOFile tableLowPhase 0 = some ⟨[1, 2], [2, 3], [-500, -260]⟩ := by
  have hnear : reduceNearest 0 [0, 30] = 0 := by
    simp only [reduceNearest, List.foldl]
    norm_num
  have hidx : idxOfQ 0 [0, 30] = 0 := by
    simp only [idxOfQ]
    norm_num
  rw [parseRAOFile, lastHeadings_tableLowPhase, lastDataStart_tableLowPhase]
  simp [hnear, hidx, parseDataRow_low1, parseDataRow_low2, tableLowPhase,
    unwrapPhases_low, List.mergeSort]

/-- A single-heading table whose data rows are out of frequency order; every
raw phase lies in `[-180, 180)`. -/
def tableUnsorted : List String :=
  ["#HEADING 0", "w(r/s)", "1 1 0", "4 1 179", "2 1 -2", "3 1 177"]

theorem headingTokens_single_eval : headingTokens "#HEADING 0" = [0] := by
  simp only [headingTokens]
  simp +decide [splitWS, splitWSAux, trimChars, removeFirstSub, parseDec,
    parseUnsigned, natVal, isWSChar, startsWithChars]

theorem lastHeadings_tableUnsorted :
    lastHeadings tableUnsorted = some [0] := by
  have hA : isHeadingLine "#HEADING 0" = true := by decide
  have hB : isHeadingLine "w(r/s)" = false := by decide
  have hC : isHeadingLine "1 1 0" = false := by decide
  have hD : isHeadingLine "4 1 179" = false := by decide
  have hE : isHeadingLine "2 1 -2" = false := by decide
  have hF : isHeadingLine "3 1 177" = false := by decide
  simp only [lastHeadings, tableUnsorted, lastHeadingsAux, hA, hB, hC, hD, hE,
    hF, if_true, if_false, Bool.false_eq_true, headingTokens_single_eval]

theorem lastDataStart_tableUnsorted :
    lastDataStart tableUnsorted = some 2 := by
  have hA : hasDataMarker "#HEADING 0" = false := by decide
  have hB : hasDataMarker "w(r/s)" = true := by decide
  have hC : hasDataMarker "1 1 0" = false := by decide
  have hD : hasDataMarker "4 1 179" = false := by decide
  have hE : hasDataMarker "2 1 -2" = false := by decide
  have hF : hasDataMarker "3 1 177" = false := by decide
  simp only [lastDataStart, tableUnsorted, lastDataStartAux, hA, hB, hC, hD,
    hE, hF, if_true, if_false, Bool.false_eq_true]

theorem parseDataRow_u1 : parseDataRow 1 0 "1 1 0" = some (1, 1, 0) := by
  simp +decide [parseDataRow, trimChars, splitWS, splitWSAux, isWSChar,
    parseDec, parseUnsigned, natVal]

theorem parseDataRow_u2 : parseDataRow 1 0 "4 1 179" = some (4, 1, 179) := by
  simp +decide [parseDataRow, trimChars, splitWS, splitWSAux, isWSChar,
    parseDec, parseUnsigned, natVal]

theorem parseDataRow_u3 : parseDataRow 1 0 "2 1 -2" = some (2, 1, -2) := by
  simp +decide [parseDataRow, trimChars, splitWS, splitWSAux, isWSChar,
    parseDec, parseUnsigned, natVal]

theorem parseDataRow_u4 : parseDataRow 1 0 "3 1 177" = some (3, 1, 177) := by
  simp +decide [parseDataRow, trimChars, splitWS, splitWSAux, isWSChar,
    parseDec, parseUnsigned, natVal]

theorem unwrapPhases_unsorted :
    unwrapPhases [(0 : ℚ), 179, -2, 177] = [0, 179, 358, 537] := by
  have h0 : normalizePhase 0 = 0 :=
    normalizePhase_eval _ _ 0 (by rw [jsTrunc]; norm_num) (by norm_num)
  have h1 : normalizePhase 179 = 179 :=
    normalizePhase_eval _ _ 0 (by rw [jsTrunc]; norm_num) (by norm_num)
  have h2 : normalizePhase (-2) = -2 :=
    normalizePhase_eval _ _ 0 (by rw [jsTrunc]; norm_num) (by norm_num)
  have h3 : normalizePhase 177 = 177 :=
    normalizePhase_eval _ _ 0 (by rw [jsTrunc]; norm_num) (by norm_num)
  simp only [unwrapPhases, unwrapStep, unwrapOffset, h0, h1, h2, h3]
  norm_num

theorem parse_tableUnsorted :
    parseRAOFile tableUnsorted 0
      = some ⟨[1, 2, 3, 4], [1, 1, 1, 1], [0, 358, 537, 179]⟩ := by
  have hnear : reduceNearest 0 [0] = 0 := by
    simp only [reduceNearest, List.foldl]
  have hidx : idxOfQ 0 [0] = 0 := by
    simp only [idxOfQ]
    norm_num
  rw [parseRAOFile, lastHeadings_tableUnsorted, lastDataStart_tableUnsorted]
  simp [hnear, hidx, parseDataRow_u1, parseDataRow_u2, parseDataRow_u3,
    parseDataRow_u4, tableUnsorted, unwrapPhases_unsorted, List.mergeSort]
  norm_num [List.merge]

/-! ## Missing-marker behaviour -/

theorem lastHeadingsAux_of_no_marker (ls : List String) : ∀ acc,
    (∀ l ∈ ls, isHeadingLine l = false) → lastHeadingsAux acc ls = acc := by
  induction ls with
  | nil => intro acc _; rfl
  | cons l ls ih =>
      intro acc h
      have hl := h l (List.mem_cons_self _ _)
      simp only [lastHeadingsAux, hl, Bool.false_eq_true, if_false]
      exact ih acc (fun x hx => h x (List.mem_cons_of_mem _ hx))

theorem lastDataStartAux_of_no_marker (ls : List String) : ∀ i acc,
    (∀ l ∈ ls, hasDataMarker l = false) → lastDataStartAux i acc ls = acc := by
  induction ls with
  | nil => intro i acc _; rfl
  | cons l ls ih =>
      intro i acc h
      have hl := h l (List.mem_cons_self _ _)
      simp only [lastDataStartAux, hl, Bool.false_eq_true, if_false]
      exact ih _ acc (fun x hx => h x (List.mem_cons_of_mem _ hx))

theorem parseRAOFile_none_of_no_heading (lines : List String) (t : ℚ)
    (h : ∀ l ∈ lines, isHeadingLine l = false) : parseRAOFile lines t = none := by
  have hH : lastHeadings lines = none := lastHeadingsAux_of_no_marker lines none h
  rw [parseRAOFile, hH]

theorem parseRAOFile_none_of_no_data (lines : List String) (t : ℚ)
    (h : ∀ l ∈ lines, hasDataMarker l = false) : parseRAOFile lines t = none := by
  have hD : lastDataStart lines = none := lastDataStartAux_of_no_marker lines 0 none h
  rw [parseRAOFile, hD]
  rcases lastHeadings lines with _ | hs
  · rfl
  · rfl

/-! ## Claims C4, C5, C6 -/

/-- C4 counterexample: a requested heading that is absent from the table's
declared heading list does not make parsing fail — `parseRAOFile` silently
resolves it to the nearest declared heading and succeeds.  The table
declares only {0, 30}; requesting 90 succeeds. -/
theorem parse_absent_heading_silently_succeeds :
    lastHeadings tableTwoHeadings = some [0, 30] ∧
    (90 : ℚ) ∉ ([0, 30] : List ℚ) ∧
    parseRAOFile tableTwoHeadings 90 ≠ none := by
  refine ⟨lastHeadings_tableTwoHeadings, by norm_num, ?_⟩
  rw [parse_tableTwoHeadings_90]
  simp

/-- C4 (amended): a missing `#HEADING` marker or a missing `w(r/s)` marker
makes `parseRAOFile` fail with `none` (the source's `null`, a ParseError),
but a requested heading that is not in the declared list does not fail: the
nearest declared heading is silently used instead (requesting 90 against a
{0, 30} table returns exactly the result for heading 30). -/
theorem parse_marker_errors_and_nearest_substitution :
    (∀ (lines : List String) (t : ℚ),
      (∀ l ∈ lines, isHeadingLine l = false) → parseRAOFile lines t = none) ∧
    (∀ (lines : List String) (t : ℚ),
      (∀ l ∈ lines, hasDataMarker l = false) → parseRAOFile lines t = none) ∧
    parseRAOFile tableTwoHeadings 90 = parseRAOFile tableTwoHeadings 30 ∧
    parseRAOFile tableTwoHeadings 90 ≠ none := by
  refine ⟨parseRAOFile_none_of_no_heading, parseRAOFile_none_of_no_data, ?_, ?_⟩
  · rw [parse_tableTwoHeadings_90, parse_tableTwoHeadings_30]
  · rw [parse_tableTwoHeadings_90]
    simp

/-- Witness: a table with data rows but no `#HEADING` line parses to
`none`. -/
theorem parse_marker_errors_and_nearest_substitution_witness :
    parseRAOFile ["w(r/s)", "1 2 2 10 20"] 0 = none :=
  parse_marker_errors_and_nearest_substitution.1 _ 0 (by decide)

/-- C5 counterexample: the normalisation step does not map every raw phase
into `(-180, 180]`: the raw phase 180 is sent to −180 (outside the
half-open interval), and the raw phase −200 is left at −200. -/
theorem normalizePhase_not_into_Ioc :
    normalizePhase 180 ∉ Set.Ioc (-180 : ℚ) 180 ∧
    normalizePhase (-200) ∉ Set.Ioc (-180 : ℚ) 180 := by
  have h1 : normalizePhase 180 = -180 :=
    normalizePhase_eval _ _ 1 (by rw [jsTrunc]; norm_num) (by norm_num)
  have h2 : normalizePhase (-200) = -200 :=
    normalizePhase_eval _ _ 0 (by rw [jsTrunc]; norm_num) (by norm_num)
  rw [h1, h2]
  constructor <;> norm_num [Set.mem_Ioc]

/-- C5 (amended): the normalisation step `((phase + 180) % 360) - 180` maps
every raw phase `p ≥ -180` into the half-open interval `[-180, 180)` (not
`(-180, 180]`); raw phases below −180 are not brought into range. -/
theorem normalizePhase_into_Ico (p : ℚ) (hp : -180 ≤ p) :
    normalizePhase p ∈ Set.Ico (-180 : ℚ) 180 :=
  normalizePhase_mem_Ico p hp

/-- Witness for the amended normalisation claim at the raw phase 0. -/
theorem normalizePhase_into_Ico_witness :
    normalizePhase 0 ∈ Set.Ico (-180 : ℚ) 180 :=
  normalizePhase_into_Ico 0 (by norm_num)

/-- C6 counterexample: the phase sequence returned by `parseRAOFile` can
step by far more than 180° + ε between consecutive points.  Two parsed
tables violate the bound: one whose first raw phase is −500 (left in place
by normalisation) returns [−500, −260], a 240° step; and one whose data
rows are out of frequency order, with every raw phase in [−180, 180),
returns [0, 358, 537, 179], a 358° step — unwrapping runs in file order
and the stable sort afterwards reorders the already-unwrapped phases. -/
theorem parse_phase_step_exceeds_bound :
    (parseRAOFile tableLowPhase 0 = some ⟨[1, 2], [2, 3], [-500, -260]⟩ ∧
      ¬ List.Chain' (fun a b => |b - a| ≤ (180 : ℚ) + 1) [(-500 : ℚ), -260]) ∧
    (parseRAOFile tableUnsorted 0
        = some ⟨[1, 2, 3, 4], [1, 1, 1, 1], [0, 358, 537, 179]⟩ ∧
      ¬ List.Chain' (fun a b => |b - a| ≤ (180 : ℚ) + 1)
          [(0 : ℚ), 358, 537, 179]) := by
  refine ⟨⟨parse_tableLowPhase, ?_⟩, ⟨parse_tableUnsorted, ?_⟩⟩
  · intro h
    rw [List.chain'_cons] at h
    have := h.1
    norm_num at this
  · intro h
    rw [List.chain'_cons] at h
    have := h.1
    norm_num at this

/-- Invariant of the unwrap loop: starting from a previous normalised phase
in `[-180, 180)`, all consecutive output deltas stay within ±180°. -/
theorem unwrapStep_chain (ps : List ℚ) : ∀ (q off : ℚ),
    q ∈ Set.Ico (-180 : ℚ) 180 → (∀ p ∈ ps, -180 ≤ p) →
    List.Chain' (fun a b => |b - a| ≤ (180 : ℚ))
      ((q + off) :: unwrapStep (some q) off ps) := by
  induction ps with
  | nil => intro q off _ _; simp [unwrapStep]
  | cons p ps ih =>
      intro q off hq hall
      have hp : -180 ≤ p := hall p (List.mem_cons_self _ _)
      have hn := normalizePhase_mem_Ico p hp
      rcases hn with ⟨hn1, hn2⟩
      rcases hq with ⟨hq1, hq2⟩
      simp only [unwrapStep]
      rw [List.chain'_cons]
      constructor
      · simp only [unwrapOffset]
        by_cases h1 : normalizePhase p - q > 180
        · rw [if_pos h1, abs_le]; constructor <;> linarith
        · rw [if_neg h1]
          by_cases h2 : normalizePhase p - q < -180
          · rw [if_pos h2, abs_le]; constructor <;> linarith
          · rw [if_neg h2, abs_le]
            push_neg at h1 h2
            constructor <;> linarith
      · exact ih (normalizePhase p) (unwrapOffset (some q) off (normalizePhase p))
          ⟨hn1, hn2⟩ (fun x hx => hall x (List.mem_cons_of_mem _ hx))

/-- The unwrap pass invariant: when every raw phase is at least −180 (so
normalisation lands in `[-180, 180)`), the unwrapped phase sequence
satisfies `|next - previous| ≤ 180` at every consecutive pair. -/
theorem unwrapPhases_chain_bounded (ps : List ℚ) (h : ∀ p ∈ ps, -180 ≤ p) :
    List.Chain' (fun a b => |b - a| ≤ (180 : ℚ)) (unwrapPhases ps) := by
  match ps with
  | [] => simp [unwrapPhases, unwrapStep]
  | p :: ps =>
      have hp : -180 ≤ p := h p (List.mem_cons_self _ _)
      have hn := normalizePhase_mem_Ico p hp
      simp only [unwrapPhases, unwrapStep, unwrapOffset]
      have := unwrapStep_chain ps (normalizePhase p) 0 hn
        (fun x hx => h x (List.mem_cons_of_mem _ hx))
      simpa using this

theorem unwrapStep_length : ∀ (prev : Option ℚ) (off : ℚ) (ps : List ℚ),
    (unwrapStep prev off ps).length = ps.length
  | _, _, [] => rfl
  | prev, off, p :: ps => by
      simp only [unwrapStep, List.length_cons]
      rw [unwrapStep_length]

theorem unwrapPhases_length (ps : List ℚ) :
    (unwrapPhases ps).length = ps.length :=
  unwrapStep_length none 0 ps

/-- When the accepted rows are already frequency-ascending, the parser's
final stable sort leaves the zipped triples in place, and the projected
phase column is exactly the unwrap pass's output. -/
theorem sorted_zip_phases (rows : List (ℚ × ℚ × ℚ))
    (hasc : List.Pairwise (· ≤ ·) (rows.map (·.1))) :
    (List.mergeSort
        ((rows.map (·.1)).zip
          (((rows.map (·.2.1))).zip (unwrapPhases (rows.map (·.2.2)))))
        (fun a b => a.1 ≤ b.1)).map (·.2.2)
      = unwrapPhases (rows.map (·.2.2)) := by
  have hlen1 : (rows.map (·.1)).length = rows.length := List.length_map _ _
  have hlen2 : (rows.map (·.2.1)).length = rows.length := List.length_map _ _
  have hlen3 : (unwrapPhases (rows.map (·.2.2))).length = rows.length := by
    rw [unwrapPhases_length, List.length_map]
  have hz23 : ((rows.map (·.2.1)).zip
      (unwrapPhases (rows.map (·.2.2)))).length = rows.length := by
    rw [List.length_zip, hlen2, hlen3, min_self]
  have hfst : ((rows.map (·.1)).zip
        ((rows.map (·.2.1)).zip (unwrapPhases (rows.map (·.2.2))))).map Prod.fst
      = rows.map (·.1) :=
    List.map_fst_zip _ _ (by rw [hlen1, hz23])
  have hpw : List.Pairwise (fun a b : ℚ × ℚ × ℚ => a.1 ≤ b.1)
      ((rows.map (·.1)).zip
        ((rows.map (·.2.1)).zip (unwrapPhases (rows.map (·.2.2))))) := by
    rw [← hfst] at hasc
    exact (List.pairwise_map.mp hasc)
  have hid : List.mergeSort
      ((rows.map (·.1)).zip
        ((rows.map (·.2.1)).zip (unwrapPhases (rows.map (·.2.2)))))
      (fun a b => a.1 ≤ b.1)
      = (rows.map (·.1)).zip
        ((rows.map (·.2.1)).zip (unwrapPhases (rows.map (·.2.2)))) :=
    List.mergeSort_of_sorted (hpw.imp (fun h => decide_eq_true h))
  rw [hid]
  have hsnd1 : ((rows.map (·.1)).zip
        ((rows.map (·.2.1)).zip (unwrapPhases (rows.map (·.2.2))))).map Prod.snd
      = (rows.map (·.2.1)).zip (unwrapPhases (rows.map (·.2.2))) :=
    List.map_snd_zip _ _ (by rw [hlen1, hz23])
  have hsnd2 : ((rows.map (·.2.1)).zip
        (unwrapPhases (rows.map (·.2.2)))).map Prod.snd
      = unwrapPhases (rows.map (·.2.2)) :=
    List.map_snd_zip _ _ (by rw [hlen2, hlen3])
  calc ((rows.map (·.1)).zip
          ((rows.map (·.2.1)).zip (unwrapPhases (rows.map (·.2.2))))).map (·.2.2)
      = (((rows.map (·.1)).zip
          ((rows.map (·.2.1)).zip
            (unwrapPhases (rows.map (·.2.2))))).map Prod.snd).map Prod.snd := by
        rw [List.map_map]
        rfl
    _ = ((rows.map (·.2.1)).zip (unwrapPhases (rows.map (·.2.2)))).map Prod.snd := by
        rw [hsnd1]
    _ = unwrapPhases (rows.map (·.2.2)) := hsnd2

/-- C6 (amended): on a table that parses (both markers present) the phase
sequence returned by `parseRAOFile` has consecutive deltas of at most 180°
in absolute value, provided every raw phase accepted from the data rows is
at least −180 AND the accepted rows are already in ascending frequency
order (so the final stable sort leaves row order unchanged).  Without the
first proviso a raw phase of −500 survives normalisation and yields a 240°
step; without the second, unwrapping — which runs in file order before the
sort — yields a 358° step even with all raw phases inside `[-180, 180)`. -/
theorem parseRAOFile_phases_chain_bounded (lines : List String) (t : ℚ)
    (hs0 : ℚ) (hrest : List ℚ) (st : ℕ)
    (hH : lastHeadings lines = some (hs0 :: hrest))
    (hD : lastDataStart lines = some st)
    (hraw : ∀ r ∈ (lines.drop st).filterMap
        (parseDataRow (hs0 :: hrest).length
          (idxOfQ (reduceNearest t (hs0 :: hrest)) (hs0 :: hrest))),
        (-180 : ℚ) ≤ r.2.2)
    (hasc : List.Pairwise (· ≤ ·)
        (((lines.drop st).filterMap
          (parseDataRow (hs0 :: hrest).length
            (idxOfQ (reduceNearest t (hs0 :: hrest)) (hs0 :: hrest)))).map (·.1)))
    (data : RAOData) (hparse : parseRAOFile lines t = some data) :
    List.Chain' (fun a b => |b - a| ≤ (180 : ℚ)) data.phases := by
  rw [parseRAOFile, hH, hD] at hparse
  simp only [Option.some.injEq] at hparse
  subst hparse
  simp only
  rw [sorted_zip_phases _ hasc]
  apply unwrapPhases_chain_bounded
  intro p hp
  rcases List.mem_map.mp hp with ⟨r, hr, hrp⟩
  rw [← hrp]
  exact hraw r hr

/-- Witness for the amended parser-phase claim on a well-formed sorted
table: the returned phase column [20] satisfies the chain bound. -/
theorem parseRAOFile_phases_chain_bounded_witness :
    List.Chain' (fun a b => |b - a| ≤ (180 : ℚ))
      (RAOData.mk [1] [2] [20]).phases :=
  parseRAOFile_phases_chain_bounded tableTwoHeadings 90 0 [30] 2
    lastHeadings_tableTwoHeadings lastDataStart_tableTwoHeadings
    (by
      intro r hr
      have hnear : reduceNearest 90 ((0 : ℚ) :: [30]) = 30 := by
        simp only [reduceNearest, List.foldl]
        norm_num
      have hidx : idxOfQ 30 ((0 : ℚ) :: [30]) = 1 := by
        simp only [idxOfQ]
        norm_num
      simp [tableTwoHeadings, hnear, hidx, parseDataRow_mid] at hr
      rw [hr]
      norm_num)
    (by
      have hnear : reduceNearest 90 ((0 : ℚ) :: [30]) = 30 := by
        simp only [reduceNearest, List.foldl]
        norm_num
      have hidx : idxOfQ 30 ((0 : ℚ) :: [30]) = 1 := by
        simp only [idxOfQ]
        norm_num
      simp [tableTwoHeadings, hnear, hidx, parseDataRow_mid])
    ⟨[1], [2], [20]⟩ parse_tableTwoHeadings_90

/-! ## PowerSpectralDensity.interpolateWaveSpectrum -/

/-- `Array.prototype.findIndex`: index of the first match, `-1` if none. -/
def jsFindIndex (p : ℚ → Bool) (l : List ℚ) : ℤ :=
  match l.findIdx? p with
  | some i => (i : ℤ)
  | none => -1

/-- `PowerSpectralDensity.interpolateWaveSpectrum`: for each target
frequency, find the first knot with `f >= freq`; return the first value at
index 0, the last value at index −1, and otherwise interpolate linearly
between the knots at `index-1` and `index`. -/
def interpolateWaveSpectrum (waveFreq waveSpec raoFreq : List ℚ) : List ℚ :=
  raoFreq.map (fun freq =>
    let index := jsFindIndex (fun f => decide (freq ≤ f)) waveFreq
    if index = 0 then waveSpec.getD 0 0
    else if index = -1 then waveSpec.getD (waveSpec.length - 1) 0
    else
      let x0 := waveFreq.getD (index.toNat - 1) 0
      let x1 := waveFreq.getD index.toNat 0
      let y0 := waveSpec.getD (index.toNat - 1) 0
      let y1 := waveSpec.getD index.toNat 0
      y0 + (freq - x0) * (y1 - y0) / (x1 - x0))

theorem strictSorted_getElem_lt (l : List ℚ) (hs : List.Chain' (· < ·) l)
    (i j : ℕ) (hij : i < j) (hj : j < l.length) :
    l[i] < l[j] := by
  have hp := List.chain'_iff_pairwise.mp hs
  exact List.pairwise_iff_getElem.mp hp i j (Nat.lt_trans hij hj) hj hij

theorem jsFindIndex_at_knot (l : List ℚ) (hs : List.Chain' (· < ·) l)
    (k : ℕ) (hk : k < l.length) :
    jsFindIndex (fun f => decide (l[k] ≤ f)) l = (k : ℤ) := by
  have h : l.findIdx? (fun f => decide (l[k] ≤ f)) = some k := by
    rw [List.findIdx?_eq_some_iff_getElem]
    refine ⟨hk, by simp, ?_⟩
    intro j hj
    simp only [Bool.not_eq_true, decide_eq_false_iff_not, not_le]
    exact strictSorted_getElem_lt l hs j k hj hk
  rw [jsFindIndex, h]

theorem jsFindIndex_below (l : List ℚ) (q : ℚ) (hne : l ≠ [])
    (hq : q < l.getD 0 0) :
    jsFindIndex (fun f => decide (q ≤ f)) l = 0 := by
  have hlen : 0 < l.length := List.length_pos.mpr hne
  have h : l.findIdx? (fun f => decide (q ≤ f)) = some 0 := by
    rw [List.findIdx?_eq_some_iff_getElem]
    refine ⟨hlen, ?_, by omega⟩
    rw [List.getD_eq_getElem l 0 hlen] at hq
    simp [le_of_lt hq]
  rw [jsFindIndex, h]
  rfl

theorem jsFindIndex_above (l : List ℚ) (q : ℚ)
    (hq : ∀ f ∈ l, f < q) :
    jsFindIndex (fun f => decide (q ≤ f)) l = -1 := by
  have h : l.findIdx? (fun f => decide (q ≤ f)) = none := by
    rw [List.findIdx?_eq_none_iff]
    intro x hx
    simp only [decide_eq_false_iff_not, not_le]
    exact hq x hx
  rw [jsFindIndex, h]

theorem jsFindIndex_inside (l : List ℚ) (hs : List.Chain' (· < ·) l)
    (q : ℚ) (j : ℕ) (hj : j + 1 < l.length)
    (h1 : l[j] < q) (h2 : q < l[j + 1]) :
    jsFindIndex (fun f => decide (q ≤ f)) l = ((j : ℤ) + 1) := by
  have h : l.findIdx? (fun f => decide (q ≤ f)) = some (j + 1) := by
    rw [List.findIdx?_eq_some_iff_getElem]
    refine ⟨hj, by simp [le_of_lt h2], ?_⟩
    intro i hi
    simp only [Bool.not_eq_true, decide_eq_false_iff_not, not_le]
    have hij : i ≤ j := Nat.lt_succ_iff.mp hi
    rcases Nat.lt_or_ge i j with hlt | hge
    · exact lt_trans (strictSorted_getElem_lt l hs i j hlt (Nat.lt_of_succ_lt hj)) h1
    · have : i = j := Nat.le_antisymm hij hge
      subst this
      exact h1
  rw [jsFindIndex, h]
  push_cast
  ring

/-- C8: for strictly increasing knots with aligned values, interpolation is
exact at every knot, returns the first value below the first knot, the last
value above the last knot, and the exact linear interpolant strictly
between two consecutive knots. -/
theorem interpolate_exact_flat_linear (waveFreq waveSpec : List ℚ)
    (hs : List.Chain' (· < ·) waveFreq)
    (hlen : waveSpec.length = waveFreq.length)
    (hne : waveFreq ≠ []) :
    (∀ k, k < waveFreq.length →
      interpolateWaveSpectrum waveFreq waveSpec [waveFreq.getD k 0]
        = [waveSpec.getD k 0]) ∧
    (∀ q : ℚ, q < waveFreq.getD 0 0 →
      interpolateWaveSpectrum waveFreq waveSpec [q] = [waveSpec.getD 0 0]) ∧
    (∀ q : ℚ, waveFreq.getD (waveFreq.length - 1) 0 < q →
      interpolateWaveSpectrum waveFreq waveSpec [q]
        = [waveSpec.getD (waveSpec.length - 1) 0]) ∧
    (∀ (q : ℚ) (j : ℕ), j + 1 < waveFreq.length →
      waveFreq.getD j 0 < q → q < waveFreq.getD (j + 1) 0 →
      interpolateWaveSpectrum waveFreq waveSpec [q]
        = [waveSpec.getD j 0 + (q - waveFreq.getD j 0) *
            (waveSpec.getD (j + 1) 0 - waveSpec.getD j 0) /
            (waveFreq.getD (j + 1) 0 - waveFreq.getD j 0)]) := by
  have hlpos : 0 < waveFreq.length := List.length_pos.mpr hne
  refine ⟨?_, ?_, ?_, ?_⟩
  · -- exact at knots
    intro k hk
    rw [interpolateWaveSpectrum, List.map_singleton]
    rw [List.getD_eq_getElem waveFreq 0 hk]
    rw [jsFindIndex_at_knot waveFreq hs k hk]
    rcases Nat.eq_zero_or_pos k with h0 | hpos
    · subst h0
      simp
    · have hk0 : (k : ℤ) ≠ 0 := by exact_mod_cast Nat.pos_iff_ne_zero.mp hpos
      have hkm : (k : ℤ) ≠ -1 := by omega
      rw [if_neg hk0, if_neg hkm]
      have htn : (k : ℤ).toNat = k := Int.toNat_natCast k
      rw [htn]
      obtain ⟨j, rfl⟩ : ∃ j, k = j + 1 := ⟨k - 1, (Nat.succ_pred_eq_of_pos hpos).symm⟩
      have hjlt : j < waveFreq.length := Nat.lt_of_succ_lt hk
      have hjspec : j < waveSpec.length := by omega
      have hj1spec : j + 1 < waveSpec.length := by omega
      simp only [Nat.add_sub_cancel]
      rw [List.getD_eq_getElem waveFreq 0 hjlt,
        List.getD_eq_getElem waveSpec 0 hjspec, List.getD_eq_getElem waveSpec 0 hj1spec]
      have hx : waveFreq[j] < waveFreq[j + 1] :=
        strictSorted_getElem_lt waveFreq hs j (j + 1) (Nat.lt_succ_self j) hk
      have hd : waveFreq[j + 1] - waveFreq[j] ≠ 0 := by linarith
      simp only [List.cons.injEq, and_true]
      field_simp
  · -- flat below the first knot
    intro q hq
    rw [interpolateWaveSpectrum, List.map_singleton]
    rw [jsFindIndex_below waveFreq q hne hq]
    simp
  · -- flat above the last knot
    intro q hq
    have hall : ∀ f ∈ waveFreq, f < q := by
      intro f hf
      obtain ⟨i, hi, rfl⟩ := List.mem_iff_getElem.mp hf
      rcases Nat.lt_or_ge i (waveFreq.length - 1) with hlt | hge
      · have hlast : waveFreq.length - 1 < waveFreq.length := by omega
        have := strictSorted_getElem_lt waveFreq hs i (waveFreq.length - 1) hlt hlast
        rw [List.getD_eq_getElem waveFreq 0 hlast] at hq
        linarith
      · have : i = waveFreq.length - 1 := by omega
        subst this
        rw [List.getD_eq_getElem waveFreq 0 (by omega)] at hq
        exact hq
    rw [interpolateWaveSpectrum, List.map_singleton]
    rw [jsFindIndex_above waveFreq q hall]
    norm_num
  · -- exact linear interpolation strictly inside
    intro q j hj h1 h2
    have hjlt : j < waveFreq.length := Nat.lt_of_succ_lt hj
    rw [List.getD_eq_getElem waveFreq 0 hjlt] at h1
    rw [List.getD_eq_getElem waveFreq 0 hj] at h2
    rw [interpolateWaveSpectrum, List.map_singleton]
    rw [jsFindIndex_inside waveFreq hs q j hj h1 h2]
    have hne0 : ((j : ℤ) + 1) ≠ 0 := by omega
    have hnem : ((j : ℤ) + 1) ≠ -1 := by omega
    rw [if_neg hne0, if_neg hnem]
    have htn : ((j : ℤ) + 1).toNat = j + 1 := by omega
    rw [htn]
    simp only [Nat.add_sub_cancel]

/-- Witness for the interpolation theorem on the knots (1, 10), (2, 20):
the interior query 3/2 evaluates to 15, a knot query returns the knot
value, and queries outside the range return the boundary values. -/
theorem interpolate_exact_flat_linear_witness :
    interpolateWaveSpectrum [1, 2] [10, 20] [3/2] = [15] ∧
    interpolateWaveSpectrum [1, 2] [10, 20] [2] = [20] ∧
    interpolateWaveSpectrum [1, 2] [10, 20] [1/2] = [10] ∧
    interpolateWaveSpectrum [1, 2] [10, 20] [3] = [20] := by
  have hs : List.Chain' (· < ·) ([1, 2] : List ℚ) := by
    norm_num [List.chain'_cons]
  have h := interpolate_exact_flat_linear [1, 2] [10, 20] hs rfl (by simp)
  have e10 : ([1, 2] : List ℚ).getD 0 0 = 1 := by norm_num [List.getD]
  have e11 : ([1, 2] : List ℚ).getD 1 0 = 2 := by norm_num [List.getD]
  have e20 : ([10, 20] : List ℚ).getD 0 0 = 10 := by norm_num [List.getD]
  have e21 : ([10, 20] : List ℚ).getD 1 0 = 20 := by norm_num [List.getD]
  refine ⟨?_, ?_, ?_, ?_⟩
  · have h4 := h.2.2.2 (3/2) 0 (by simp) (by rw [e10]; norm_num) (by rw [e11]; norm_num)
    rw [e10, e11, e20, e21] at h4
    rw [h4]
    norm_num
  · have h1 := h.1 1 (by simp)
    rw [e11, e21] at h1
    exact h1
  · have h2 := h.2.1 (1/2) (by rw [e10]; norm_num)
    rw [e20] at h2
    exact h2
  · have h3 := h.2.2.1 3 (by norm_num [List.getD])
    norm_num [List.getD] at h3
    exact h3

/-! ## PowerSpectralDensity over ℝ: acceleration scaling, Wf weighting, MSDV -/

/-- `Math.sqrt`: NaN (here `none`) on negative input. -/
noncomputable def jsSqrt (x : ℝ) : Option ℝ :=
  if x < 0 then none else some (Real.sqrt x)

/-- The trapezoidal rule shared by `JonswapSpectrum.trapezoidalIntegration`
and the inline integration loop of `PowerSpectralDensity.calculateMSDV`:
`Σ 0.5·(y[i-1]+y[i])·(x[i]-x[i-1])`, for aligned abscissa/ordinate lists. -/
def trapezoidalIntegration : List ℝ → List ℝ → ℝ
  | x0 :: x1 :: xs, y0 :: y1 :: ys =>
      0.5 * (y0 + y1) * (x1 - x0) + trapezoidalIntegration (x1 :: xs) (y1 :: ys)
  | _, _ => 0

/-- `PowerSpectralDensity.calculateMSDV`: for each position's weighted PSD,
integrate over the frequency grid with the trapezoidal rule and take
`Math.sqrt` of the integral (no exposure-time factor; `this.T_exp` is never
read here).  The source iterates over `Object.keys(verticalPSDs)`; the map
is embedded as an association list. -/
noncomputable def calculateMSDV (verticalPSDs : List (ℝ × List ℝ))
    (frequencies : List ℝ) : List (ℝ × Option ℝ) :=
  verticalPSDs.map (fun ps => (ps.1, jsSqrt (trapezoidalIntegration frequencies ps.2)))

/-- `PowerSpectralDensity.convertToAccelerationPSDs`: heave scaled by
`(2π·f)^4`, pitch and cross scaled by `f^4`, pointwise over the RAO
frequency grid. -/
noncomputable def convertToAccelerationPSDs (freqRAO hPSD pPSD cPSD : List ℝ) :
    List ℝ × List ℝ × List ℝ :=
  (List.zipWith (fun psd f => psd * (2 * Real.pi * f) ^ 4) hPSD freqRAO,
   List.zipWith (fun psd f => psd * f ^ 4) pPSD freqRAO,
   List.zipWith (fun psd f => psd * f ^ 4) cPSD freqRAO)

/-- C3: the acceleration conversion multiplies heave by `(2π·freq[i])^4`
and pitch/cross by `freq[i]^4` at every index, so the heave scaling differs
from the pitch/cross scaling by exactly `(2π)^4` at every frequency. -/
theorem acceleration_scaling_asymmetry (freq h p c : List ℝ) (i : ℕ)
    (hif : i < freq.length) (hih : i < h.length) (hip : i < p.length)
    (hic : i < c.length) :
    (convertToAccelerationPSDs freq h p c).1.getD i 0
        = (2 * Real.pi * freq.getD i 0) ^ 4 * h.getD i 0 ∧
    (convertToAccelerationPSDs freq h p c).2.1.getD i 0
        = (freq.getD i 0) ^ 4 * p.getD i 0 ∧
    (convertToAccelerationPSDs freq h p c).2.2.getD i 0
        = (freq.getD i 0) ^ 4 * c.getD i 0 ∧
    (convertToAccelerationPSDs freq h p c).1.getD i 0
        = (2 * Real.pi) ^ 4 * ((freq.getD i 0) ^ 4 * h.getD i 0) := by
  have hh : i < (List.zipWith (fun psd f => psd * (2 * Real.pi * f) ^ 4) h freq).length := by
    rw [List.length_zipWith]; omega
  have hp' : i < (List.zipWith (fun psd f => psd * f ^ 4) p freq).length := by
    rw [List.length_zipWith]; omega
  have hc' : i < (List.zipWith (fun psd f => psd * f ^ 4) c freq).length := by
    rw [List.length_zipWith]; omega
  rw [convertToAccelerationPSDs]
  rw [List.getD_eq_getElem _ 0 hh, List.getD_eq_getElem _ 0 hp',
    List.getD_eq_getElem _ 0 hc', List.getD_eq_getElem freq 0 hif,
    List.getD_eq_getElem h 0 hih, List.getD_eq_getElem p 0 hip,
    List.getD_eq_getElem c 0 hic]
  simp only [List.getElem_zipWith]
  refine ⟨by ring, by ring, by ring, by ring⟩

/-- Witness for the acceleration-scaling theorem at index 0 of the
singleton series freq = [1], heave = [2], pitch = [3], cross = [4]. -/
theorem acceleration_scaling_asymmetry_witness :
    (convertToAccelerationPSDs [1] [2] [3] [4]).1.getD 0 0
        = (2 * Real.pi * ([1] : List ℝ).getD 0 0) ^ 4 * ([2] : List ℝ).getD 0 0 ∧
    (convertToAccelerationPSDs [1] [2] [3] [4]).2.1.getD 0 0
        = (([1] : List ℝ).getD 0 0) ^ 4 * ([3] : List ℝ).getD 0 0 ∧
    (convertToAccelerationPSDs [1] [2] [3] [4]).2.2.getD 0 0
        = (([1] : List ℝ).getD 0 0) ^ 4 * ([4] : List ℝ).getD 0 0 ∧
    (convertToAccelerationPSDs [1] [2] [3] [4]).1.getD 0 0
        = (2 * Real.pi) ^ 4 * ((([1] : List ℝ).getD 0 0) ^ 4 * ([2] : List ℝ).getD 0 0) :=
  acceleration_scaling_asymmetry [1] [2] [3] [4] 0
    (by simp) (by simp) (by simp) (by simp)

/-- The trapezoidal sum over a grid with fewer than two points is 0,
whatever the ordinates. -/
theorem trapezoidalIntegration_short (x : List ℝ) (hx : x.length < 2)
    (y : List ℝ) : trapezoidalIntegration x y = 0 := by
  match x, hx with
  | [], _ => cases y <;> rfl
  | [a], _ => cases y <;> rfl
  | a :: b :: xs, hx =>
      simp only [List.length_cons] at hx
      omega

/-- C9: a frequency grid of length 0 or 1 yields dose 0 for every position,
with no error. -/
theorem msdv_zero_on_short_grid (psds : List (ℝ × List ℝ)) (freqs : List ℝ)
    (h : freqs.length < 2) :
    ∀ pr ∈ calculateMSDV psds freqs, pr.2 = some 0 := by
  intro pr hpr
  rw [calculateMSDV] at hpr
  obtain ⟨ps, _, rfl⟩ := List.mem_map.mp hpr
  have htr : trapezoidalIntegration freqs ps.2 = 0 :=
    trapezoidalIntegration_short freqs h ps.2
  simp [jsSqrt, htr]

/-- Witness: the singleton grid [5] with one position of PSD [1] gives dose
`some 0`. -/
theorem msdv_zero_on_short_grid_witness :
    ((0:ℝ), jsSqrt (trapezoidalIntegration [(5:ℝ)] [(1:ℝ)])).2 = some 0 :=
  msdv_zero_on_short_grid [((0:ℝ), [(1:ℝ)])] [5] (by simp) _
    (by simp [calculateMSDV])

/-- C2 counterexample: `calculateMSDV` takes `Math.sqrt` of the raw
integral with no `max(·, 0)` clamp: a (synthetic) weighted PSD that is −1
on both grid points has integral −1, and the dose is NaN (`none`), not
`sqrt (max (-1) 0) = 0`. -/
theorem msdv_no_clamp :
    calculateMSDV [((0:ℝ), [(-1:ℝ), -1])] [0, 1] = [(0, none)] ∧
    ((0:ℝ), some (Real.sqrt
        (max (trapezoidalIntegration [(0:ℝ), 1] [(-1:ℝ), -1]) 0)))
      ∉ calculateMSDV [((0:ℝ), [(-1:ℝ), -1])] [0, 1] := by
  have htr : trapezoidalIntegration [(0:ℝ), 1] [(-1:ℝ), -1] = -1 := by
    rw [trapezoidalIntegration, trapezoidalIntegration_short _ (by simp)]
    norm_num
  have hs : jsSqrt (-1 : ℝ) = none := by
    rw [jsSqrt, if_pos]
    norm_num
  constructor
  · simp [calculateMSDV, htr, hs]
  · simp [calculateMSDV, htr, hs]

/-- C2 (amended): for every position the dose is `sqrt` of the trapezoidal
integral of that position's weighted PSD over the grid, with no
exposure-time multiplier; when the integral is nonnegative this agrees
with `sqrt (max (integral, 0))`, but a negative integral yields NaN rather
than 0 because the source has no clamp. -/
theorem msdv_sqrt_of_integral (psds : List (ℝ × List ℝ)) (freqs : List ℝ)
    (p : ℝ) (s : List ℝ) (hmem : (p, s) ∈ psds)
    (hI : 0 ≤ trapezoidalIntegration freqs s) :
    (p, some (Real.sqrt (max (trapezoidalIntegration freqs s) 0)))
      ∈ calculateMSDV psds freqs := by
  rw [max_eq_left hI, calculateMSDV]
  refine List.mem_map.mpr ⟨(p, s), hmem, ?_⟩
  simp [jsSqrt, not_lt.mpr hI]

/-- Witness: on the grid [0, 1] with constant weighted PSD 1 the integral
is 1 and the dose is `sqrt (max 1 0)`. -/
theorem msdv_sqrt_of_integral_witness :
    ((0:ℝ), some (Real.sqrt
        (max (trapezoidalIntegration [(0:ℝ), 1] [(1:ℝ), 1]) 0)))
      ∈ calculateMSDV [((0:ℝ), [(1:ℝ), 1])] [0, 1] :=
  msdv_sqrt_of_integral [((0:ℝ), [(1:ℝ), 1])] [0, 1] 0 [1, 1] (by simp)
    (by rw [trapezoidalIntegration, trapezoidalIntegration_short _ (by simp)]
        norm_num)

/-! ## PowerSpectralDensity: ISO-2631 Wf weighting cascade -/

/-- The explicit pair-of-reals complex type of `PowerSpectralDensity`. -/
structure JsComplex where
  real : ℝ
  imag : ℝ

/-- `PowerSpectralDensity.complexAdd`. -/
def complexAdd (a b : JsComplex) : JsComplex :=
  ⟨a.real + b.real, a.imag + b.imag⟩

/-- `PowerSpectralDensity.complexMultiply`. -/
def complexMultiply (a b : JsComplex) : JsComplex :=
  ⟨a.real * b.real - a.imag * b.imag, a.real * b.imag + a.imag * b.real⟩

/-- The real scalar `denominator` computed inside
`PowerSpectralDensity.complexDivide`. -/
def complexDenominator (b : JsComplex) : ℝ := b.real * b.real + b.imag * b.imag

/-- `PowerSpectralDensity.complexDivide`. -/
noncomputable def complexDivide (a b : JsComplex) : JsComplex :=
  ⟨(a.real * b.real + a.imag * b.imag) / complexDenominator b,
   (a.imag * b.real - a.real * b.imag) / complexDenominator b⟩

/-- `PowerSpectralDensity.complexAbs`. -/
noncomputable def complexAbs (z : JsComplex) : ℝ :=
  Real.sqrt (z.real * z.real + z.imag * z.imag)

/-- The Wf corner frequencies (rad/s) and dampings of `applyWfWeighting`. -/
noncomputable def wfOmega1 : ℝ := 2 * Real.pi * 0.08
noncomputable def wfOmega2 : ℝ := 2 * Real.pi * 0.63
noncomputable def wfOmega3 : ℝ := 2 * Real.pi * 3.5
noncomputable def wfOmega4 : ℝ := 2 * Real.pi * 0.25
noncomputable def wfOmega5 : ℝ := 2 * Real.pi * 0.06
noncomputable def wfOmega6 : ℝ := 2 * Real.pi * 0.10
noncomputable def wfZeta1 : ℝ := 1 / Real.sqrt 2
noncomputable def wfZeta2 : ℝ := 1 / Real.sqrt 2
def wfZeta4 : ℝ := 0.86
def wfZeta5 : ℝ := 0.80
def wfZeta6 : ℝ := 0.80

/-- The quadratic polynomial `s² + 2ζΩ·s + Ω²` evaluated with the source's
complex operations; it is the divisor of all four stages of
`applyWfWeighting` (with (Ω₁,ζ₁), (Ω₂,ζ₂), (Ω₄,ζ₄), (Ω₆,ζ₆)) and the
dividend of the step stage (with (Ω₅,ζ₅)). -/
def quadPoly (W z : ℝ) (s : JsComplex) : JsComplex :=
  complexAdd (complexAdd (complexMultiply s s)
    (complexMultiply ⟨2 * z * W, 0⟩ s)) ⟨W ^ 2, 0⟩

/-- The complex number `s = iω` built per frequency in `applyWfWeighting`. -/
def sComplex (w : ℝ) : JsComplex := ⟨0, w⟩

/-- `PowerSpectralDensity.applyWfWeighting`: the four-stage ISO-2631 Wf
cascade evaluated at `s = iω`, squared magnitude applied pointwise. -/
noncomputable def applyWfWeighting (omega PSD : List ℝ) : List ℝ :=
  List.zipWith (fun w psd =>
    let s := sComplex w
    let Hh := complexDivide (complexMultiply s s) (quadPoly wfOmega1 wfZeta1 s)
    let Hl := complexDivide ⟨wfOmega2 ^ 2, 0⟩ (quadPoly wfOmega2 wfZeta2 s)
    let Ht := complexDivide
      (complexAdd (complexMultiply ⟨wfOmega4 ^ 2 / wfOmega3, 0⟩ s) ⟨wfOmega4 ^ 2, 0⟩)
      (quadPoly wfOmega4 wfZeta4 s)
    let Hst := complexDivide (quadPoly wfOmega5 wfZeta5 s) (quadPoly wfOmega6 wfZeta6 s)
    let Wf := complexMultiply (complexMultiply Hh Hl) (complexMultiply Ht Hst)
    complexAbs Wf ^ 2 * psd) omega PSD

theorem quadPoly_den_eq (W z w : ℝ) :
    complexDenominator (quadPoly W z (sComplex w))
      = (W ^ 2 - w ^ 2) ^ 2 + (2 * z * W * w) ^ 2 := by
  simp only [quadPoly, sComplex, complexAdd, complexMultiply, complexDenominator]
  ring

theorem quadPoly_den_pos (W z : ℝ) (hW : 0 < W) (hz : 0 < z) (w : ℝ) :
    0 < complexDenominator (quadPoly W z (sComplex w)) := by
  rw [quadPoly_den_eq]
  rcases eq_or_ne w 0 with hw | hw
  · subst hw
    ring_nf
    positivity
  · have hb : (2 * z * W * w) ≠ 0 :=
      mul_ne_zero (mul_ne_zero (mul_ne_zero two_ne_zero hz.ne') hW.ne') hw
    have h2 : (2 * z * W * w) ^ 2 ≠ 0 := pow_ne_zero 2 hb
    have h2' : (0:ℝ) ≤ (2 * z * W * w) ^ 2 := sq_nonneg _
    have h2p : (0:ℝ) < (2 * z * W * w) ^ 2 := lt_of_le_of_ne h2' (Ne.symm h2)
    nlinarith [sq_nonneg (W ^ 2 - w ^ 2)]

/-- C10: at every real angular frequency ω (including ω = 0) the four
divisor polynomials of the Wf cascade have nonzero squared magnitude, so
every `complexDivide` performed by `applyWfWeighting` divides by a nonzero
real, and `applyWfWeighting` is total (one output per aligned input
pair). -/
theorem wf_denominators_nonzero :
    (∀ w : ℝ,
      complexDenominator (quadPoly wfOmega1 wfZeta1 (sComplex w)) ≠ 0 ∧
      complexDenominator (quadPoly wfOmega2 wfZeta2 (sComplex w)) ≠ 0 ∧
      complexDenominator (quadPoly wfOmega4 wfZeta4 (sComplex w)) ≠ 0 ∧
      complexDenominator (quadPoly wfOmega6 wfZeta6 (sComplex w)) ≠ 0) ∧
    ∀ (omega PSD : List ℝ),
      (applyWfWeighting omega PSD).length = min omega.length PSD.length := by
  have hsqrt2 : (0:ℝ) < Real.sqrt 2 := Real.sqrt_pos.mpr (by norm_num)
  have hzeta : (0:ℝ) < 1 / Real.sqrt 2 := div_pos one_pos hsqrt2
  have hpi := Real.pi_pos
  constructor
  · intro w
    refine ⟨?_, ?_, ?_, ?_⟩
    · exact (quadPoly_den_pos wfOmega1 wfZeta1 (by rw [wfOmega1]; positivity)
        (by rw [wfZeta1]; exact hzeta) w).ne'
    · exact (quadPoly_den_pos wfOmega2 wfZeta2 (by rw [wfOmega2]; positivity)
        (by rw [wfZeta2]; exact hzeta) w).ne'
    · exact (quadPoly_den_pos wfOmega4 wfZeta4 (by rw [wfOmega4]; positivity)
        (by rw [wfZeta4]; norm_num) w).ne'
    · exact (quadPoly_den_pos wfOmega6 wfZeta6 (by rw [wfOmega6]; positivity)
        (by rw [wfZeta6]; norm_num) w).ne'
  · intro omega PSD
    rw [applyWfWeighting, List.length_zipWith]

/-! ## JonswapSpectrum: iterative alpha calibration

Embedding of `JonswapSpectrum.calculateSpectrum` /
`calculateAlphaIterative` / `computeSpectrumWithAlpha` (part_002).  The
floating-point loop `for(w=0.01; w<=6.0; w+=0.01)` is modelled exactly:
600 grid points `0.01, 0.02, …, 6.00`. -/

/-- The fixed angular-frequency grid of `calculateSpectrum`. -/
noncomputable def omegaGrid : List ℝ :=
  List.map (fun i : ℕ => ((i : ℝ) + 1) / 100) (List.range 600)

/-- The JONSWAP integrand shared by `calculateSpectrum` and
`computeSpectrumWithAlpha`:
`alpha · g² · w⁻⁵ · exp(−1.25(ωp/w)⁴) · γ^exp₂` with
`ωp = 2π/Tp`, `σ = 0.07` for `w ≤ ωp` else `0.09`,
`exp₂ = exp(−(w−ωp)²/(2(σωp)²))`. -/
noncomputable def jonswapS (alpha Tp gamma g w : ℝ) : ℝ :=
  alpha * g ^ 2 * w ^ (-5 : ℤ) *
    Real.exp (-1.25 * (2 * Real.pi / Tp / w) ^ 4) *
    Real.rpow gamma (Real.exp (-(w - 2 * Real.pi / Tp) ^ 2 /
      (2 * ((if w ≤ 2 * Real.pi / Tp then (0.07 : ℝ) else 0.09) * (2 * Real.pi / Tp)) ^ 2)))

/-- `JonswapSpectrum.computeSpectrumWithAlpha`. -/
noncomputable def computeSpectrumWithAlpha (omega : List ℝ) (alpha Tp gamma g : ℝ) :
    List ℝ :=
  omega.map (jonswapS alpha Tp gamma g)

/-- The estimate `4·sqrt(m0)` computed in each calibration iteration, where
`m0` is the trapezoidal integral of the spectrum with the current alpha. -/
noncomputable def estimatedHs (omega : List ℝ) (alpha Tp gamma g : ℝ) : ℝ :=
  4 * Real.sqrt (trapezoidalIntegration omega
    (computeSpectrumWithAlpha omega alpha Tp gamma g))

/-- One alpha update of the calibration loop: `alpha * (targetHs / estimatedHs)`. -/
noncomputable def alphaStep (omega : List ℝ) (targetHs Tp gamma g alpha : ℝ) : ℝ :=
  alpha * (targetHs / estimatedHs omega alpha Tp gamma g)

/-- The calibration loop of `calculateAlphaIterative`: up to `n` iterations,
break when `|targetHs/estimatedHs − 1| < 1e-3`, else multiply alpha by the
quotient; the last updated alpha is returned when every check fails. -/
noncomputable def alphaLoop (omega : List ℝ) (targetHs Tp gamma g : ℝ) :
    ℕ → ℝ → ℝ
  | 0, alpha => alpha
  | n + 1, alpha =>
    if |targetHs / estimatedHs omega alpha Tp gamma g - 1| < 1e-3 then alpha
    else alphaLoop omega targetHs Tp gamma g n
      (alpha * (targetHs / estimatedHs omega alpha Tp gamma g))

/-- `JonswapSpectrum.calculateAlphaIterative`: initial guess 0.0081, at
most 50 iterations. -/
noncomputable def calculateAlphaIterative (omega : List ℝ) (targetHs Tp gamma g : ℝ) :
    ℝ :=
  alphaLoop omega targetHs Tp gamma g 50 0.0081

/-- `JonswapSpectrum.calculateSpectrum`: calibrate alpha for (Hs, Tp) with
γ = 3.3 and g = 9.81, then evaluate the JONSWAP formula over the fixed
grid. -/
noncomputable def calculateSpectrum (Hs Tp : ℝ) : List (ℝ × ℝ) :=
  omegaGrid.map (fun w =>
    (w, jonswapS (calculateAlphaIterative omegaGrid Hs Tp 3.3 9.81) Tp 3.3 9.81 w))

/-- The non-convergence signalling of `calculateAlphaIterative`: the
source's loop ends in a plain `return alpha` — there is no exception,
return flag, log or event that distinguishes exhausting the 50 iterations
from converging, so the set of inputs for which a degraded-accuracy
(CalibrationNonConvergence) condition is signalled to the caller is
empty. -/
def calibrationSignaled (targetHs Tp : ℝ) : Prop := False

/-! ### Grid facts -/

theorem omegaGrid_length : omegaGrid.length = 600 := by
  rw [omegaGrid, List.length_map, List.length_range]

theorem omegaGrid_chain_lt : List.Chain' (· < ·) omegaGrid := by
  rw [omegaGrid, List.chain'_map]
  have h600 : (600 : ℕ) = 599 + 1 := by norm_num
  rw [h600, List.chain'_range_succ]
  intro m _
  rw [div_lt_div_iff_of_pos_right]
  · push_cast
    linarith
  · norm_num

theorem omegaGrid_chain_step :
    List.Chain' (fun a b : ℝ => a ≤ b ∧ b - a ≤ 1 / 100) omegaGrid := by
  rw [omegaGrid, List.chain'_map]
  have h600 : (600 : ℕ) = 599 + 1 := by norm_num
  rw [h600, List.chain'_range_succ]
  intro m _
  constructor
  · rw [div_le_div_iff_of_pos_right]
    · push_cast
      linarith
    · norm_num
  · push_cast
    ring_nf
    norm_num

theorem omegaGrid_mem_bounds (w : ℝ) (hw : w ∈ omegaGrid) :
    1 / 100 ≤ w ∧ w ≤ 6 := by
  rw [omegaGrid, List.mem_map] at hw
  obtain ⟨i, hi, rfl⟩ := hw
  have hi6 : i < 600 := List.mem_range.mp hi
  have hnn : (0 : ℝ) ≤ (i : ℝ) := Nat.cast_nonneg i
  have hup : (i : ℝ) ≤ 599 := by exact_mod_cast Nat.lt_succ_iff.mp hi6
  constructor
  · rw [div_le_div_iff_of_pos_right (by norm_num : (0:ℝ) < 100)]
    linarith
  · rw [div_le_iff (by norm_num : (0:ℝ) < 100)]
    linarith

/-! ### Trapezoidal-rule algebra -/

theorem trapz_smul (c : ℝ) : ∀ (x y : List ℝ),
    trapezoidalIntegration x (y.map (fun v => c * v))
      = c * trapezoidalIntegration x y
  | [], y => by
      rw [trapezoidalIntegration_short _ (by simp),
        trapezoidalIntegration_short _ (by simp)]
      ring
  | [x0], y => by
      rw [trapezoidalIntegration_short _ (by simp),
        trapezoidalIntegration_short _ (by simp)]
      ring
  | x0 :: x1 :: xs, [] => by
      simp [trapezoidalIntegration]
  | x0 :: x1 :: xs, [y0] => by
      simp [trapezoidalIntegration]
  | x0 :: x1 :: xs, y0 :: y1 :: ys => by
      simp only [List.map_cons, trapezoidalIntegration]
      have ih := trapz_smul c (x1 :: xs) (y1 :: ys)
      simp only [List.map_cons] at ih
      rw [ih]
      ring

theorem trapz_nonneg : ∀ (x y : List ℝ),
    List.Chain' (· ≤ ·) x → (∀ v ∈ y, 0 ≤ v) →
    0 ≤ trapezoidalIntegration x y
  | [], y, _, _ => by rw [trapezoidalIntegration_short _ (by simp)]
  | [x0], y, _, _ => by rw [trapezoidalIntegration_short _ (by simp)]
  | x0 :: x1 :: xs, [], _, _ => by simp [trapezoidalIntegration]
  | x0 :: x1 :: xs, [y0], _, _ => by simp [trapezoidalIntegration]
  | x0 :: x1 :: xs, y0 :: y1 :: ys, hc, hy => by
      rw [trapezoidalIntegration]
      have hc1 : x0 ≤ x1 := (List.chain'_cons.mp hc).1
      have hc2 : List.Chain' (· ≤ ·) (x1 :: xs) := (List.chain'_cons.mp hc).2
      have hy0 : 0 ≤ y0 := hy y0 (by simp)
      have hy1 : 0 ≤ y1 := hy y1 (by simp)
      have htail := trapz_nonneg (x1 :: xs) (y1 :: ys) hc2
        (fun v hv => hy v (List.mem_cons_of_mem _ hv))
      nlinarith

theorem trapz_pos (x y : List ℝ) (hchain : List.Chain' (· < ·) x)
    (hlen : y.length = x.length) (hx2 : 2 ≤ x.length)
    (hpos : ∀ v ∈ y, 0 < v) : 0 < trapezoidalIntegration x y := by
  match x, y with
  | x0 :: x1 :: xs, y0 :: y1 :: ys =>
    rw [trapezoidalIntegration]
    have hc1 : x0 < x1 := (List.chain'_cons.mp hchain).1
    have hc2 : List.Chain' (· < ·) (x1 :: xs) := (List.chain'_cons.mp hchain).2
    have hy0 : 0 < y0 := hpos y0 (by simp)
    have hy1 : 0 < y1 := hpos y1 (by simp)
    have htail := trapz_nonneg (x1 :: xs) (y1 :: ys)
      (hc2.imp (fun a b h => le_of_lt h))
      (fun v hv => (hpos v (List.mem_cons_of_mem _ hv)).le)
    nlinarith
  | [], _ => simp at hx2
  | [x0], _ => simp at hx2
  | x0 :: x1 :: xs, [] =>
    simp only [List.length_nil, List.length_cons] at hlen
    omega
  | x0 :: x1 :: xs, [y0] =>
    simp only [List.length_cons, List.length_nil] at hlen
    omega

theorem trapz_le_bound (d M : ℝ) (hd : 0 ≤ d) (hM : 0 ≤ M) :
    ∀ (x y : List ℝ),
    List.Chain' (fun a b : ℝ => a ≤ b ∧ b - a ≤ d) x →
    (∀ v ∈ y, 0 ≤ v ∧ v ≤ M) →
    trapezoidalIntegration x y ≤ ((x.length - 1 : ℕ) : ℝ) * d * M
  | [], y, _, _ => by
      rw [trapezoidalIntegration_short _ (by simp)]
      positivity
  | [x0], y, _, _ => by
      rw [trapezoidalIntegration_short _ (by simp)]
      positivity
  | x0 :: x1 :: xs, [], _, _ => by
      simp only [trapezoidalIntegration]
      positivity
  | x0 :: x1 :: xs, [y0], _, _ => by
      simp only [trapezoidalIntegration]
      positivity
  | x0 :: x1 :: xs, y0 :: y1 :: ys, hc, hy => by
      rw [trapezoidalIntegration]
      have hc1 := (List.chain'_cons.mp hc).1
      have hc2 : List.Chain' (fun a b : ℝ => a ≤ b ∧ b - a ≤ d) (x1 :: xs) :=
        (List.chain'_cons.mp hc).2
      have hy0 := hy y0 (by simp)
      have hy1 := hy y1 (by simp)
      have htail := trapz_le_bound d M hd hM (x1 :: xs) (y1 :: ys) hc2
        (fun v hv => hy v (List.mem_cons_of_mem _ hv))
      have hlen1 : (((x0 :: x1 :: xs).length - 1 : ℕ) : ℝ)
          = (((x1 :: xs).length - 1 : ℕ) : ℝ) + 1 := by
        simp only [List.length_cons]
        push_cast [Nat.add_sub_cancel]
        ring
      rw [hlen1]
      have hterm : 0.5 * (y0 + y1) * (x1 - x0) ≤ d * M := by
        nlinarith [hc1.1, hc1.2, hy0.1, hy0.2, hy1.1, hy1.2]
      nlinarith [htail]

/-! ### JONSWAP integrand bounds -/

theorem jonswapS_linear (alpha Tp gamma g w : ℝ) :
    jonswapS alpha Tp gamma g w = alpha * jonswapS 1 Tp gamma g w := by
  rw [jonswapS, jonswapS]
  ring

theorem jonswapS_pos (Tp gamma g w : ℝ) (hγ : 0 < gamma) (hg : g ≠ 0)
    (hw : 0 < w) : 0 < jonswapS 1 Tp gamma g w := by
  rw [jonswapS]
  have h1 : (0:ℝ) < g ^ 2 := by positivity
  have h2 : (0:ℝ) < w ^ (-5 : ℤ) := zpow_pos hw _
  have h3 : (0:ℝ) < Real.exp (-1.25 * (2 * Real.pi / Tp / w) ^ 4) := Real.exp_pos _
  have h4 : (0:ℝ) < Real.rpow gamma (Real.exp (-(w - 2 * Real.pi / Tp) ^ 2 /
      (2 * ((if w ≤ 2 * Real.pi / Tp then (0.07 : ℝ) else 0.09) *
        (2 * Real.pi / Tp)) ^ 2))) := Real.rpow_pos_of_pos hγ _
  nlinarith [mul_pos (mul_pos (mul_pos h1 h2) h3) h4]

theorem jonswapS_unit_le (Tp w : ℝ) (hw : 1 / 100 ≤ w) :
    jonswapS 1 Tp 3.3 9.81 w ≤ 9.81 ^ 2 * 10 ^ 10 * 3.3 := by
  have hw0 : (0:ℝ) < w := lt_of_lt_of_le (by norm_num) hw
  have hz : w ^ (-5 : ℤ) = (w ^ (5:ℕ))⁻¹ := by
    rw [zpow_neg]
    norm_cast
  have h5 : ((1:ℝ) / 100) ^ (5:ℕ) ≤ w ^ (5:ℕ) := pow_le_pow_left (by norm_num) hw 5
  have hinv : (w ^ (5:ℕ))⁻¹ ≤ (((1:ℝ) / 100) ^ (5:ℕ))⁻¹ :=
    inv_le_inv_of_le (by positivity) h5
  have hb1 : w ^ (-5 : ℤ) ≤ 10 ^ 10 := by
    rw [hz]
    calc (w ^ (5:ℕ))⁻¹ ≤ (((1:ℝ) / 100) ^ (5:ℕ))⁻¹ := hinv
    _ = 10 ^ 10 := by norm_num
  have hb1' : (0:ℝ) < w ^ (-5 : ℤ) := zpow_pos hw0 _
  have hb2 : Real.exp (-1.25 * (2 * Real.pi / Tp / w) ^ 4) ≤ 1 := by
    rw [show (1:ℝ) = Real.exp 0 from (Real.exp_zero).symm]
    apply Real.exp_le_exp.mpr
    have h4 : (0:ℝ) ≤ (2 * Real.pi / Tp / w) ^ 4 := by positivity
    nlinarith
  have hb2' : (0:ℝ) < Real.exp (-1.25 * (2 * Real.pi / Tp / w) ^ 4) := Real.exp_pos _
  have hexp2 : Real.exp (-(w - 2 * Real.pi / Tp) ^ 2 /
      (2 * ((if w ≤ 2 * Real.pi / Tp then (0.07 : ℝ) else 0.09) *
        (2 * Real.pi / Tp)) ^ 2)) ≤ 1 := by
    rw [show (1:ℝ) = Real.exp 0 from (Real.exp_zero).symm]
    apply Real.exp_le_exp.mpr
    apply div_nonpos_iff.mpr
    refine Or.inr ⟨?_, ?_⟩
    · exact neg_nonpos.mpr (sq_nonneg _)
    · positivity
  have hb3 : Real.rpow 3.3 (Real.exp (-(w - 2 * Real.pi / Tp) ^ 2 /
      (2 * ((if w ≤ 2 * Real.pi / Tp then (0.07 : ℝ) else 0.09) *
        (2 * Real.pi / Tp)) ^ 2))) ≤ 3.3 := by
    calc Real.rpow 3.3 (Real.exp (-(w - 2 * Real.pi / Tp) ^ 2 /
          (2 * ((if w ≤ 2 * Real.pi / Tp then (0.07 : ℝ) else 0.09) *
            (2 * Real.pi / Tp)) ^ 2)))
        ≤ Real.rpow 3.3 1 :=
          Real.rpow_le_rpow_of_exponent_le (by norm_num) hexp2
    _ = 3.3 := Real.rpow_one _
  have hb3' : (0:ℝ) < Real.rpow 3.3 (Real.exp (-(w - 2 * Real.pi / Tp) ^ 2 /
      (2 * ((if w ≤ 2 * Real.pi / Tp then (0.07 : ℝ) else 0.09) *
        (2 * Real.pi / Tp)) ^ 2))) := Real.rpow_pos_of_pos (by norm_num) _
  rw [jonswapS]
  calc 1 * 9.81 ^ 2 * w ^ (-5 : ℤ) *
        Real.exp (-1.25 * (2 * Real.pi / Tp / w) ^ 4) *
        Real.rpow 3.3 (Real.exp (-(w - 2 * Real.pi / Tp) ^ 2 /
          (2 * ((if w ≤ 2 * Real.pi / Tp then (0.07 : ℝ) else 0.09) *
            (2 * Real.pi / Tp)) ^ 2)))
      ≤ 1 * 9.81 ^ 2 * (10 ^ 10) * 1 * 3.3 := by
        gcongr 1 * 9.81 ^ 2 * ?_ * ?_ * ?_
  _ = 9.81 ^ 2 * 10 ^ 10 * 3.3 := by ring

/-! ### The zeroth moment is linear in alpha -/

theorem m0_linear (omega : List ℝ) (alpha Tp gamma g : ℝ) :
    trapezoidalIntegration omega (computeSpectrumWithAlpha omega alpha Tp gamma g)
      = alpha * trapezoidalIntegration omega
          (computeSpectrumWithAlpha omega 1 Tp gamma g) := by
  rw [computeSpectrumWithAlpha, computeSpectrumWithAlpha]
  have hmap : omega.map (jonswapS alpha Tp gamma g)
      = (omega.map (jonswapS 1 Tp gamma g)).map (fun v => alpha * v) := by
    rw [List.map_map]
    apply List.map_congr_left
    intro a _
    exact jonswapS_linear alpha Tp gamma g a
  rw [hmap, trapz_smul]

theorem estimatedHs_eq (omega : List ℝ) (alpha Tp gamma g : ℝ) :
    estimatedHs omega alpha Tp gamma g
      = 4 * Real.sqrt (alpha * trapezoidalIntegration omega
          (computeSpectrumWithAlpha omega 1 Tp gamma g)) := by
  rw [estimatedHs, m0_linear]

theorem estimatedHs_pos (omega : List ℝ) (alpha Tp gamma g : ℝ)
    (hα : 0 < alpha)
    (hK : 0 < trapezoidalIntegration omega (computeSpectrumWithAlpha omega 1 Tp gamma g)) :
    0 < estimatedHs omega alpha Tp gamma g := by
  rw [estimatedHs_eq]
  have : 0 < alpha * trapezoidalIntegration omega
      (computeSpectrumWithAlpha omega 1 Tp gamma g) := mul_pos hα hK
  have := Real.sqrt_pos.mpr this
  linarith

/-! ### The unit zeroth moment over the fixed grid is positive and bounded -/

set_option maxRecDepth 4000 in
theorem K_pos (Tp : ℝ) :
    0 < trapezoidalIntegration omegaGrid
      (computeSpectrumWithAlpha omegaGrid 1 Tp 3.3 9.81) := by
  apply trapz_pos _ _ omegaGrid_chain_lt
  · rw [computeSpectrumWithAlpha, List.length_map]
  · rw [omegaGrid_length]
    norm_num
  · intro v hv
    rw [computeSpectrumWithAlpha, List.mem_map] at hv
    obtain ⟨w, hw, rfl⟩ := hv
    have hwb := omegaGrid_mem_bounds w hw
    exact jonswapS_pos Tp 3.3 9.81 w (by norm_num) (by norm_num)
      (lt_of_lt_of_le (by norm_num) hwb.1)

set_option maxRecDepth 4000 in
theorem K_le (Tp : ℝ) :
    trapezoidalIntegration omegaGrid
      (computeSpectrumWithAlpha omegaGrid 1 Tp 3.3 9.81)
      ≤ 6 * (9.81 ^ 2 * 10 ^ 10 * 3.3) := by
  have hb := trapz_le_bound (1 / 100) (9.81 ^ 2 * 10 ^ 10 * 3.3)
    (by norm_num) (by norm_num) omegaGrid
    (computeSpectrumWithAlpha omegaGrid 1 Tp 3.3 9.81)
    omegaGrid_chain_step ?_
  · refine le_trans hb ?_
    rw [omegaGrid_length]
    norm_num
  · intro v hv
    rw [computeSpectrumWithAlpha, List.mem_map] at hv
    obtain ⟨w, hw, rfl⟩ := hv
    have hwb := omegaGrid_mem_bounds w hw
    constructor
    · exact (jonswapS_pos Tp 3.3 9.81 w (by norm_num) (by norm_num)
        (lt_of_lt_of_le (by norm_num) hwb.1)).le
    · exact jonswapS_unit_le Tp w hwb.1

/-! ### Ratio dynamics of the calibration loop -/

theorem ratio_step (omega : List ℝ) (targetHs Tp gamma g alpha : ℝ)
    (hα : 0 < alpha) (hHs : 0 < targetHs)
    (hK : 0 < trapezoidalIntegration omega (computeSpectrumWithAlpha omega 1 Tp gamma g)) :
    targetHs / estimatedHs omega (alphaStep omega targetHs Tp gamma g alpha) Tp gamma g
      = Real.sqrt (targetHs / estimatedHs omega alpha Tp gamma g) := by
  set K := trapezoidalIntegration omega (computeSpectrumWithAlpha omega 1 Tp gamma g)
    with hKdef
  have hest : 0 < estimatedHs omega alpha Tp gamma g := estimatedHs_pos _ _ _ _ _ hα hK
  have hr : 0 < targetHs / estimatedHs omega alpha Tp gamma g := div_pos hHs hest
  have hαK : 0 ≤ alpha * K := (mul_pos hα hK).le
  have hstep : estimatedHs omega (alphaStep omega targetHs Tp gamma g alpha) Tp gamma g
      = estimatedHs omega alpha Tp gamma g *
        Real.sqrt (targetHs / estimatedHs omega alpha Tp gamma g) := by
    rw [alphaStep, estimatedHs_eq, ← hKdef]
    rw [show alpha * (targetHs / estimatedHs omega alpha Tp gamma g) * K
        = alpha * K * (targetHs / estimatedHs omega alpha Tp gamma g) from by ring]
    rw [Real.sqrt_mul hαK]
    rw [estimatedHs_eq, ← hKdef]
    ring
  rw [hstep]
  rw [div_mul_eq_div_div]
  rw [Real.div_sqrt]

/-! ### Loop unrolling -/

theorem alphaLoop_cases (omega : List ℝ) (targetHs Tp gamma g : ℝ) :
    ∀ (n : ℕ) (alpha : ℝ),
      |targetHs / estimatedHs omega
          (alphaLoop omega targetHs Tp gamma g n alpha) Tp gamma g - 1| < 1e-3
      ∨ alphaLoop omega targetHs Tp gamma g n alpha
          = (alphaStep omega targetHs Tp gamma g)^[n] alpha
  | 0, alpha => Or.inr rfl
  | n + 1, alpha => by
      simp only [alphaLoop]
      by_cases hc : |targetHs / estimatedHs omega alpha Tp gamma g - 1| < 1e-3
      · rw [if_pos hc]
        exact Or.inl hc
      · rw [if_neg hc]
        rcases alphaLoop_cases omega targetHs Tp gamma g n
          (alpha * (targetHs / estimatedHs omega alpha Tp gamma g)) with h | h
        · exact Or.inl h
        · right
          rw [h, Function.iterate_succ_apply]
          rfl

theorem alphaLoop_of_all_fail (omega : List ℝ) (targetHs Tp gamma g : ℝ) :
    ∀ (n : ℕ) (alpha : ℝ),
      (∀ j < n, ¬ |targetHs / estimatedHs omega
          ((alphaStep omega targetHs Tp gamma g)^[j] alpha) Tp gamma g - 1| < 1e-3) →
      alphaLoop omega targetHs Tp gamma g n alpha
        = (alphaStep omega targetHs Tp gamma g)^[n] alpha
  | 0, alpha, _ => rfl
  | n + 1, alpha, h => by
      have h0 := h 0 (Nat.succ_pos n)
      simp only [Function.iterate_zero, id_eq] at h0
      simp only [alphaLoop, if_neg h0]
      have hrec := alphaLoop_of_all_fail omega targetHs Tp gamma g n
        (alphaStep omega targetHs Tp gamma g alpha) ?_
      · rw [show alpha * (targetHs / estimatedHs omega alpha Tp gamma g)
            = alphaStep omega targetHs Tp gamma g alpha from rfl, hrec,
          ← Function.iterate_succ_apply]
      · intro j hj
        rw [← Function.iterate_succ_apply]
        exact h (j + 1) (Nat.succ_lt_succ hj)

theorem alphaIter_pos (omega : List ℝ) (targetHs Tp gamma g alpha : ℝ)
    (hα : 0 < alpha) (hHs : 0 < targetHs)
    (hK : 0 < trapezoidalIntegration omega
      (computeSpectrumWithAlpha omega 1 Tp gamma g)) :
    ∀ n : ℕ, 0 < (alphaStep omega targetHs Tp gamma g)^[n] alpha
  | 0 => hα
  | n + 1 => by
      rw [Function.iterate_succ_apply']
      have hn := alphaIter_pos omega targetHs Tp gamma g alpha hα hHs hK n
      have hest := estimatedHs_pos omega _ Tp gamma g hn hK
      rw [alphaStep]
      exact mul_pos hn (div_pos hHs hest)

theorem iterate_ratio_lower (omega : List ℝ) (targetHs Tp gamma g alpha0 : ℝ)
    (hα : 0 < alpha0) (hHs : 0 < targetHs)
    (hK : 0 < trapezoidalIntegration omega
      (computeSpectrumWithAlpha omega 1 Tp gamma g))
    (hstart : ((101 : ℝ) / 100) ^ (2 ^ 50 : ℕ)
      ≤ targetHs / estimatedHs omega alpha0 Tp gamma g) :
    ∀ n : ℕ, n ≤ 50 → ((101 : ℝ) / 100) ^ (2 ^ (50 - n) : ℕ)
      ≤ targetHs / estimatedHs omega
          ((alphaStep omega targetHs Tp gamma g)^[n] alpha0) Tp gamma g
  | 0, _ => by simpa using hstart
  | n + 1, hn1 => by
      have hn : n ≤ 50 := Nat.le_of_succ_le hn1
      have ih := iterate_ratio_lower omega targetHs Tp gamma g alpha0 hα hHs hK
        hstart n hn
      have hpos := alphaIter_pos omega targetHs Tp gamma g alpha0 hα hHs hK n
      have hsucc : targetHs / estimatedHs omega
          ((alphaStep omega targetHs Tp gamma g)^[n + 1] alpha0) Tp gamma g
          = Real.sqrt (targetHs / estimatedHs omega
              ((alphaStep omega targetHs Tp gamma g)^[n] alpha0) Tp gamma g) := by
        rw [Function.iterate_succ_apply']
        exact ratio_step omega targetHs Tp gamma g _ hpos hHs hK
      rw [hsucc]
      have key : ((101 : ℝ) / 100) ^ (2 ^ (50 - (n + 1)) : ℕ)
          = Real.sqrt (((101 : ℝ) / 100) ^ (2 ^ (50 - n) : ℕ)) := by
        have hmn : 50 - n = (50 - (n + 1)) + 1 := by omega
        rw [hmn, pow_succ, pow_mul, Real.sqrt_sq (by positivity)]
      rw [key]
      exact Real.sqrt_le_sqrt ih

/-! ### C1: the calibration claim -/

/-- A wave height so large that the ratio iteration cannot reach the 0.1%
tolerance within 50 halvings of `log(ratio)`: with `Tp = 1` the unit
zeroth moment over the grid is at most `6·(9.81²·10¹⁰·3.3)`, so the first
estimate `4·sqrt(0.0081·K)` is at most `2·10⁶` and the first ratio is at
least `(101/100)^(2^50)`. -/
noncomputable def bigHs : ℝ := 2 * 10 ^ 6 * ((101 : ℝ) / 100) ^ (2 ^ 50 : ℕ)

theorem estimatedHs_nonneg (omega : List ℝ) (alpha Tp gamma g : ℝ) :
    0 ≤ estimatedHs omega alpha Tp gamma g := by
  rw [estimatedHs]
  positivity

theorem bigHs_pos : 0 < bigHs := by
  rw [bigHs]
  positivity

theorem first_estimate_le :
    estimatedHs omegaGrid 0.0081 1 3.3 9.81 ≤ 2 * 10 ^ 6 := by
  have hKle := K_le 1
  have hK := K_pos 1
  rw [estimatedHs_eq]
  have h1 : (0.0081 : ℝ) * trapezoidalIntegration omegaGrid
      (computeSpectrumWithAlpha omegaGrid 1 1 3.3 9.81) ≤ 16 * 10 ^ 10 := by
    nlinarith
  have h2 : Real.sqrt ((0.0081 : ℝ) * trapezoidalIntegration omegaGrid
      (computeSpectrumWithAlpha omegaGrid 1 1 3.3 9.81)) ≤ 4 * 10 ^ 5 := by
    rw [show (4 * 10 ^ 5 : ℝ) = Real.sqrt ((4 * 10 ^ 5) ^ 2) from
      (Real.sqrt_sq (by norm_num)).symm]
    apply Real.sqrt_le_sqrt
    nlinarith
  linarith

theorem first_ratio_ge :
    ((101 : ℝ) / 100) ^ (2 ^ 50 : ℕ)
      ≤ bigHs / estimatedHs omegaGrid 0.0081 1 3.3 9.81 := by
  have hK := K_pos 1
  have hest : 0 < estimatedHs omegaGrid 0.0081 1 3.3 9.81 :=
    estimatedHs_pos _ _ _ _ _ (by norm_num) hK
  have hle := first_estimate_le
  have h1 : bigHs / (2 * 10 ^ 6) ≤ bigHs / estimatedHs omegaGrid 0.0081 1 3.3 9.81 :=
    div_le_div_of_nonneg_left bigHs_pos.le hest hle
  have h2 : bigHs / (2 * 10 ^ 6) = ((101 : ℝ) / 100) ^ (2 ^ 50 : ℕ) := by
    rw [bigHs]
    exact mul_div_cancel_left₀ _ (by norm_num)
  rw [← h2]
  exact h1

/-- C1 counterexample: at `Hs = 2·10⁶·(101/100)^(2^50)` and `Tp = 1` the
calibration exhausts all 50 iterations with every tolerance check failing
(the final estimate is still at least 1% away from `Hs`), yet no
degraded-accuracy condition is signalled — the source has no signal
channel, so the claim's disjunction fails at this input. -/
theorem calibration_nonconvergence_unsignaled :
    0 < bigHs ∧ (0:ℝ) < 1 ∧
    ¬ (|estimatedHs omegaGrid (calculateAlphaIterative omegaGrid bigHs 1 3.3 9.81)
          1 3.3 9.81 / bigHs - 1| < 1e-3
        ∨ calibrationSignaled bigHs 1) := by
  have hK := K_pos 1
  have hHs := bigHs_pos
  have hstart := first_ratio_ge
  have hlow := iterate_ratio_lower omegaGrid bigHs 1 3.3 9.81 0.0081
    (by norm_num) hHs hK hstart
  have hone : (1 : ℝ) ≤ 101 / 100 := by norm_num
  have hfail : ∀ j < 50, ¬ |bigHs / estimatedHs omegaGrid
      ((alphaStep omegaGrid bigHs 1 3.3 9.81)^[j] 0.0081) 1 3.3 9.81 - 1| < 1e-3 := by
    intro j hj
    have hlj := hlow j (le_of_lt hj)
    have hexp : (2 : ℕ) ≤ 2 ^ (50 - j) := by
      have : 1 ≤ 50 - j := by omega
      calc (2:ℕ) = 2 ^ 1 := by norm_num
      _ ≤ 2 ^ (50 - j) := Nat.pow_le_pow_right (by norm_num) this
    have hc2 : ((101 : ℝ) / 100) ^ (2 : ℕ) ≤ ((101 : ℝ) / 100) ^ (2 ^ (50 - j) : ℕ) :=
      pow_le_pow_right hone hexp
    have hval : (10201 : ℝ) / 10000 ≤ bigHs / estimatedHs omegaGrid
        ((alphaStep omegaGrid bigHs 1 3.3 9.81)^[j] 0.0081) 1 3.3 9.81 := by
      calc (10201 : ℝ) / 10000 = ((101 : ℝ) / 100) ^ (2 : ℕ) := by norm_num
      _ ≤ _ := le_trans hc2 hlj
    intro habs
    rw [abs_lt] at habs
    have hub := habs.2
    clear hlow hstart hlj hc2 habs
    norm_num at hub
    linarith
  have hloop : calculateAlphaIterative omegaGrid bigHs 1 3.3 9.81
      = (alphaStep omegaGrid bigHs 1 3.3 9.81)^[50] 0.0081 := by
    rw [calculateAlphaIterative]
    exact alphaLoop_of_all_fail omegaGrid bigHs 1 3.3 9.81 50 0.0081 hfail
  have hfinal : (101 : ℝ) / 100 ≤ bigHs / estimatedHs omegaGrid
      ((alphaStep omegaGrid bigHs 1 3.3 9.81)^[50] 0.0081) 1 3.3 9.81 := by
    have := hlow 50 (le_refl 50)
    simpa using this
  have hpos50 := alphaIter_pos omegaGrid bigHs 1 3.3 9.81 0.0081
    (by norm_num) hHs hK 50
  have hest50 : 0 < estimatedHs omegaGrid
      ((alphaStep omegaGrid bigHs 1 3.3 9.81)^[50] 0.0081) 1 3.3 9.81 :=
    estimatedHs_pos _ _ _ _ _ hpos50 hK
  refine ⟨hHs, by norm_num, ?_⟩
  rintro (habs | hsig)
  · rw [hloop] at habs
    rw [abs_lt] at habs
    set e := estimatedHs omegaGrid
      ((alphaStep omegaGrid bigHs 1 3.3 9.81)^[50] 0.0081) 1 3.3 9.81 with hedef
    have ht : 0 < e / bigHs := div_pos hest50 hHs
    have hmul : e / bigHs * (bigHs / e) = 1 := by
      field_simp
    have hl := habs.1
    have hu := habs.2
    clear hlow hstart habs hfail hloop
    nlinarith [hl, hu, hfinal, ht, hmul]
  · exact hsig

/-- C1 (amended): for every Hs, Tp > 0, either the returned alpha passes
the source's convergence test `|Hs/(4√m0) − 1| < 1e-3` — which bounds the
claim's quantity `|4√m0/Hs − 1|` only by `1.1e-3`, not `1e-3` — or every
one of the 50 checks failed, the 50-times-updated alpha is returned, and
no degraded-accuracy condition is signalled to the caller. -/
theorem calibration_tolerance_or_silent_exhaustion (Hs Tp : ℝ)
    (hHs : 0 < Hs) (hTp : 0 < Tp) :
    (|Hs / estimatedHs omegaGrid (calculateAlphaIterative omegaGrid Hs Tp 3.3 9.81)
        Tp 3.3 9.81 - 1| < 1e-3
      ∧ |estimatedHs omegaGrid (calculateAlphaIterative omegaGrid Hs Tp 3.3 9.81)
          Tp 3.3 9.81 / Hs - 1| < 11 / 10 ^ 4)
    ∨ (calculateAlphaIterative omegaGrid Hs Tp 3.3 9.81
        = (alphaStep omegaGrid Hs Tp 3.3 9.81)^[50] 0.0081
      ∧ ¬ calibrationSignaled Hs Tp) := by
  rw [calculateAlphaIterative]
  rcases alphaLoop_cases omegaGrid Hs Tp 3.3 9.81 50 0.0081 with h | h
  · left
    refine ⟨h, ?_⟩
    set e := estimatedHs omegaGrid (alphaLoop omegaGrid Hs Tp 3.3 9.81 50 0.0081)
      Tp 3.3 9.81 with hedef
    have he0 : 0 ≤ e := estimatedHs_nonneg _ _ _ _ _
    have hene : e ≠ 0 := by
      intro h0
      rw [h0, div_zero] at h
      norm_num at h
    have hepos : 0 < e := lt_of_le_of_ne he0 (Ne.symm hene)
    have habs := abs_lt.mp h
    have ht : 0 < e / Hs := div_pos hepos hHs
    have hmul : e / Hs * (Hs / e) = 1 := by field_simp
    have hq1 : Hs / e - 1 < 1e-3 := habs.2
    have hq2 : -(1e-3) < Hs / e - 1 := habs.1
    rw [abs_lt]
    constructor <;> nlinarith [hq1, hq2, ht, hmul, div_pos hHs hepos]
  · right
    exact ⟨h, fun f => f⟩

/-- Witness instantiating the amended calibration theorem at Hs = 1,
Tp = 1. -/
theorem calibration_tolerance_or_silent_exhaustion_witness :
    (|1 / estimatedHs omegaGrid (calculateAlphaIterative omegaGrid 1 1 3.3 9.81)
        1 3.3 9.81 - 1| < 1e-3
      ∧ |estimatedHs omegaGrid (calculateAlphaIterative omegaGrid 1 1 3.3 9.81)
          1 3.3 9.81 / 1 - 1| < 11 / 10 ^ 4)
    ∨ (calculateAlphaIterative omegaGrid 1 1 3.3 9.81
        = (alphaStep omegaGrid 1 1 3.3 9.81)^[50] 0.0081
      ∧ ¬ calibrationSignaled 1 1) :=
  calibration_tolerance_or_silent_exhaustion 1 1 (by norm_num) (by norm_num)

end DashboardMS
